import Mathlib

/-!
# Verification of the `tabulator_parser` repository

Shallow embedding of the Python sources (`tab_model.py`, `tab_parser.py`,
`tab_render_model.py`, `midi_export.py`) and proofs about the claims of the
specification.

Modelling conventions:
* Python `str` values are embedded as `List Char`; a whole input text is a
  `List (List Char)` of lines (Python `str.splitlines`).
* `fractions.Fraction` is embedded as `ℚ` (exact rational arithmetic, as in
  the source).  The `float` values of `midi_export.py` are embedded as `ℚ`
  as well; all concrete values appearing in theorems are exactly
  representable as doubles.
* Python character predicates (`str.isdigit`, `\s`, `\d`) are embedded with
  their ASCII meaning, which is the only case exercised by the sources.
* Python exceptions (`TabParseError`, `ZeroDivisionError`) become an
  `Except PErr` result.
* The `while` loops that advance a column cursor by a computed amount are
  embedded with an explicit fuel argument (`fuel` strictly decreases each
  iteration, the cursor advances by at least one column per iteration, and
  every call site passes fuel larger than the number of remaining columns,
  so the out-of-fuel branch is unreachable).
-/

/- The Batteries definitions of rational arithmetic are `@[irreducible]`,
which blocks `decide`-based evaluation of the embedded functions on concrete
inputs.  Restore the kernel's view (the kernel ignores reducibility
attributes anyway): concrete witnesses and counterexamples below evaluate
the parser on real inputs through these operations. -/
set_option allowUnsafeReducibility true in
attribute [semireducible] Rat.add Rat.mul Rat.inv Rat.sub Rat.neg Rat.div

namespace Tabulator

/-! ## Character and string helpers (Python `str` operations) -/

/-- Python's `\s` / `str.strip()` whitespace, ASCII part. -/
def pyIsSpace (c : Char) : Bool :=
  c = ' ' ∨ c = '\t' ∨ c = '\n' ∨ c = '\x0b' ∨ c = '\x0c' ∨ c = '\r'

/-- Python's `str.isdigit` / `\d`, ASCII part. -/
def pyIsDigit (c : Char) : Bool := '0' ≤ c ∧ c ≤ '9'

/-- Python `str.strip()`: drop leading and trailing whitespace. -/
def pyStrip (l : List Char) : List Char :=
  ((l.dropWhile pyIsSpace).reverse.dropWhile pyIsSpace).reverse

/-- Python `str.lstrip()`. -/
def pyLStrip (l : List Char) : List Char := l.dropWhile pyIsSpace

/-- Python `str.ljust(w)` with space padding. -/
def pyLJust (l : List Char) (w : ℕ) : List Char :=
  l ++ List.replicate (w - l.length) ' '

/-- Python slice `l[a:b]` for `0 ≤ a, b` (clamping semantics). -/
def pySlice (l : List Char) (a b : ℕ) : List Char := (l.drop a).take (b - a)

/-- Numeric value of a digit string (`int(...)` on a `\d+` match). -/
def digitsToNat (l : List Char) : ℕ :=
  l.foldl (fun acc c => 10 * acc + (c.toNat - '0'.toNat)) 0

/-- The run of digits of `row` starting at absolute index `i`
(`_NOTE_NUM_RE.match(row, i)`). -/
def digitsFrom (row : List Char) (i : ℕ) : List Char :=
  (row.drop i).takeWhile pyIsDigit

/-- Substring test (`"PM" in s` style). -/
def containsSeq (pat : List Char) : List Char → Bool
  | [] => pat.isEmpty
  | c :: rest => (pat.isPrefixOf (c :: rest)) || containsSeq pat rest

/-! ## Data model (`tab_model.py`) -/

structure TimeSignature where
  numerator : ℕ
  denominator : ℕ
deriving DecidableEq, Repr

inductive Barline where
  | single
  | double
  | repeatStart
  | repeatEnd
  | doubleEnding
deriving DecidableEq, Repr

/-- Diagnostic messages are modelled by their kind (the Python code stores
formatted strings). -/
inductive WarnKind where
  | unrecognizedLine
  | inconsistentBarlines
deriving DecidableEq, Repr

structure ParseWarning where
  line_no : ℕ
  kind : WarnKind
deriving DecidableEq, Repr

inductive Technique where
  | hammerOn (from_fret to_fret : Option ℕ)
  | pullOff (from_fret to_fret : Option ℕ)
  | slideIn (direction : Char)
  | vibrato
  | muted
  | unknownTech (raw : List Char)
deriving DecidableEq, Repr

structure TieInfo where
  continued : Bool := true
deriving DecidableEq, Repr

structure DurationToken where
  raw : List Char
  symbol : Char
  dotted : ℕ := 0
  tie : Bool := false
  staccato : Bool := false
  grace : Bool := false
  multibar_rests : Option ℕ := none
deriving DecidableEq, Repr

structure TupletSpan where
  actual : ℕ
  normal : ℕ
  start_col : ℕ
  end_col : ℕ
deriving DecidableEq, Repr

structure AnnotationSpan where
  kind : List Char
  start_col : ℕ
  end_col : ℕ
deriving DecidableEq, Repr

structure NoteEvent where
  start : ℚ
  duration : ℚ
  string_index : ℕ := 0
  fret : Option ℕ := none
  techniques : List Technique := []
  tie : Option TieInfo := none
  grace : Bool := false
  pitch : Option ℕ := none
  is_ghost : Bool := false
deriving DecidableEq, Repr

structure ChordEvent where
  start : ℚ
  duration : ℚ
  notes : List NoteEvent := []
deriving DecidableEq, Repr

structure RestEvent where
  start : ℚ
  duration : ℚ
deriving DecidableEq, Repr

/-- The `Union[NoteEvent, ChordEvent, RestEvent]` element type of
`Measure.events`.  (The unused `Event.notations` list of the Python base
class is omitted: no source file reads or writes it.) -/
inductive Event where
  | note (ne : NoteEvent)
  | chord (ce : ChordEvent)
  | rest (re : RestEvent)
deriving DecidableEq, Repr

def Event.start : Event → ℚ
  | .note ne => ne.start
  | .chord ce => ce.start
  | .rest re => re.start

def Event.duration : Event → ℚ
  | .note ne => ne.duration
  | .chord ce => ce.duration
  | .rest re => re.duration

/-- The `string_index` of a note event, `0` for the other variants (used only to
state the sort key of the claim about unknown-rhythm mode). -/
def Event.stringIndexD : Event → ℕ
  | .note ne => ne.string_index
  | .chord _ => 0
  | .rest _ => 0

structure Measure where
  barline_left : Barline
  barline_right : Barline
  time_signature : TimeSignature
  events : List Event := []
  raw_columns : Option ℕ := none
deriving DecidableEq, Repr

structure Tuning where
  labels : List (List Char)
deriving DecidableEq, Repr

structure TabSystem where
  tuning : Tuning
  measures : List Measure := []
  annotations : List AnnotationSpan := []
  tuplets : List TupletSpan := []
  duration_line : Option (List Char) := none
  raw_lines : List (List Char) := []
deriving DecidableEq, Repr

structure Section where
  timestamp : Option (ℕ × ℕ) := none
  time_signature : Option TimeSignature := none
  systems : List TabSystem := []
deriving DecidableEq, Repr

/-- The `TabScore` record; the `metadata["warnings"]` entry is modelled as the
`warnings` field. -/
structure TabScore where
  title : List Char
  artist : List Char
  capo : Option ℕ := none
  sections : List Section := []
  warnings : List ParseWarning := []
deriving DecidableEq, Repr

inductive MidiType where
  | note_on
  | note_off
deriving DecidableEq, Repr

structure MidiEvent where
  time_sec : ℚ
  type : MidiType
  pitch : ℕ
  velocity : ℕ := 90
  channel : ℕ := 0
deriving DecidableEq, Repr

/-- The exceptions raised by the parser: the two `TabParseError` sites and the
`ZeroDivisionError` of `Fraction(4, ts.denominator)`. -/
inductive PErr where
  | missingHeader
  | noStringLines
  | zeroDivision
deriving DecidableEq, Repr

/-! ## Duration tokenizer (`_maybe_parse_duration_at`, `_parse_duration_token`,
`_duration_token_to_beats`) -/

/-- Embeds `DURATION_SYMBOLS = set(list("WHQESTXa") + list("whqestx"))`.
Note that uppercase `A` is *not* a member. -/
def durationSymbols : List Char := "WHQESTXawhqestx".toList

def isDurationSymbol (c : Char) : Bool := c ∈ durationSymbols

/-- Embeds `_parse_duration_token(raw)`. -/
def parseDurationToken (raw : List Char) : DurationToken :=
  let tie := raw.headD ' ' = '+'
  let core := if tie then raw.tail else raw
  let dotted := core.count '.'
  let coreNodot := core.filter (· ≠ '.')
  -- `^([WHQESTXawhqestxa])x(\d+)$` with group 1 uppercased equal to W
  let wx : Option (Char × ℕ) :=
    match coreNodot with
    | sym :: 'x' :: ds =>
        if isDurationSymbol sym ∧ ds ≠ [] ∧ ds.all pyIsDigit ∧ sym.toUpper = 'W' then
          some (sym, digitsToNat ds)
        else none
    | _ => none
  let (symbol, multibar) :=
    match wx with
    | some (sym, n) => (sym, some n)
    | none => (coreNodot.headD ' ', none)
  { raw := raw
    symbol := symbol
    dotted := dotted
    tie := tie
    staccato := symbol.isLower
    grace := symbol.toLower = 'a'
    multibar_rests := multibar }

/-- Embeds `_maybe_parse_duration_at(s, idx)`: returns the token and the number of
consumed columns. -/
def maybeParseDurationAt (s : List Char) (idx : ℕ) : Option (DurationToken × ℕ) :=
  if idx ≥ s.length then none
  else
    let c := s.getD idx ' '
    let first : Option (List Char × ℕ) :=
      if c = '+' then
        if idx + 1 < s.length ∧ isDurationSymbol (s.getD (idx + 1) ' ') then
          some ([c, s.getD (idx + 1) ' '], idx + 2)
        else none
      else if isDurationSymbol c then some ([c], idx + 1)
      else none
    match first with
    | none => none
    | some (raw0, k0) =>
        -- trailing dots (the loop `while k < len(s) and s[k] == "."`)
        let dots := (s.drop k0).takeWhile (· = '.')
        let raw1 := raw0 ++ dots
        let k1 := k0 + dots.length
        -- `Wxn` suffix, only when the raw text currently ends in `W`/`w`
        let (raw2, k2) :=
          if (raw1.getLastD ' ' = 'W' ∨ raw1.getLastD ' ' = 'w') ∧
              k1 < s.length ∧ s.getD k1 ' ' = 'x' then
            let ds := digitsFrom s (k1 + 1)
            if ds ≠ [] then (raw1 ++ 'x' :: ds, k1 + 1 + ds.length)
            else (raw1, k1)
          else (raw1, k1)
        some (parseDurationToken raw2, max 1 (k2 - idx))

/-- The quarter-note base length table of `_duration_token_to_beats`.  The
lookup key is the *uppercased* symbol, so the lowercase `"a"` entry of the
Python dict can never be hit and grace symbols fall through to the
default `Fraction(1, 1)`. -/
def baseBeats (c : Char) : ℚ :=
  if c = 'W' then 4
  else if c = 'H' then 2
  else if c = 'Q' then 1
  else if c = 'E' then 1/2
  else if c = 'S' then 1/4
  else if c = 'T' then 1/8
  else if c = 'X' then 1/16
  else if c = 'a' then 0
  else 1

/-- Embeds `_duration_token_to_beats(token, ts)`.  The guard
`if token.multibar_rests:` is Python truthiness, so the multi-measure-rest
branch is skipped both for `None` and for a count of `0` (token `Wx0`);
only a strictly positive count enters it.  There `Fraction(4, ts.denominator)`
raises `ZeroDivisionError` when the denominator is `0`; that exception is the
`.error .zeroDivision` branch. -/
def durationTokenToBeats (token : DurationToken) (ts : TimeSignature) :
    Except PErr (DurationToken × ℚ) :=
  let sym := token.symbol.toUpper
  let dur0 := baseBeats sym
  let dur1 :=
    if token.dotted = 1 then dur0 + dur0 / 2
    else if token.dotted = 2 then dur0 + dur0 / 2 + dur0 / 4
    else dur0
  let dur2 := if token.staccato ∧ dur1 > 0 then dur1 / 2 else dur1
  match token.multibar_rests with
  | some (n + 1) =>
      if ts.denominator = 0 then .error .zeroDivision
      else
        let quarterPerBeatUnit : ℚ := 4 / (ts.denominator : ℚ)
        let measureBeats : ℚ := (ts.numerator : ℚ) * quarterPerBeatUnit
        .ok (token, measureBeats * ((n + 1 : ℕ) : ℚ))
  | _ => .ok (token, dur2)

/-! ## Note token recognition (`_parse_note_at`) -/

/-- Result of `_parse_note_at` when a note is found (the Python triple
`(note_dict, techniques, consumed)` with `note_dict ≠ None`). -/
structure NoteInfo where
  fret : Option ℕ
  ghost : Bool := false
  techniques : List Technique := []
  consumed : ℕ
deriving DecidableEq, Repr

/-- Embeds `_parse_note_at(row, col)`. -/
def parseNoteAt (row : List Char) (col : ℕ) : Option NoteInfo :=
  if col ≥ row.length then none
  else
    let c0 := row.getD col ' '
    if (c0 = '/' ∨ c0 = '\\') ∧ col + 1 < row.length ∧ pyIsDigit (row.getD (col + 1) ' ') then
      let ds := digitsFrom row (col + 1)
      some { fret := some (digitsToNat ds), techniques := [.slideIn c0],
             consumed := 1 + ds.length }
    else if pyIsDigit c0 then
      let ds := digitsFrom row col
      let fret0 := digitsToNat ds
      let e := col + ds.length
      -- inline legato `<fret>h<fret>` / `<fret>p<fret>`
      let legato : Option (ℕ × Technique × ℕ) :=
        if e < row.length ∧ (row.getD e ' ' = 'h' ∨ row.getD e ' ' = 'p') ∧
            e + 1 < row.length ∧ pyIsDigit (row.getD (e + 1) ' ') then
          let ds2 := digitsFrom row (e + 1)
          let toFret := digitsToNat ds2
          let tech : Technique :=
            if row.getD e ' ' = 'h' then .hammerOn (some fret0) (some toFret)
            else .pullOff (some fret0) (some toFret)
          some (toFret, tech, e + 1 + ds2.length - col)
        else none
      let (fret, techs, consumed) :=
        match legato with
        | some (toFret, tech, cons) => (toFret, [tech], cons)
        | none => (fret0, ([] : List Technique), ds.length)
      let techs :=
        if col + consumed < row.length ∧ row.getD (col + consumed) ' ' = '~' then
          techs ++ [.vibrato]
        else techs
      some { fret := some fret, techniques := techs, consumed := consumed }
    else
      -- ghost `(<digits>)`; falls through to the mute test when it fails,
      -- which can never succeed for `(`, hence `none`.
      let ghost : Option NoteInfo :=
        if c0 = '(' then
          let ds := digitsFrom row (col + 1)
          if ds ≠ [] ∧ row.getD (col + 1 + ds.length) ' ' = ')' ∧
              col + 1 + ds.length < row.length then
            some { fret := some (digitsToNat ds), ghost := true,
                   consumed := ds.length + 2 }
          else none
        else none
      match ghost with
      | some info => some info
      | none =>
          if c0.toLower = 'x' then
            some { fret := none, techniques := [.muted], consumed := 1 }
          else none

/-! ## Unknown-rhythm mode scanning (`_parse_measure_events`, branch
`dur_slice is None`) -/

/-- One iteration step of the unknown-rhythm column scan for one string row:
the event produced at column `c` (if any) and the next cursor value. -/
def unknownStep (si : ℕ) (row : List Char) (c : ℕ) : Option NoteEvent × ℕ :=
  let ch := row.getD c ' '
  if pyIsDigit ch then
    let ds := digitsFrom row c
    (some { start := (c : ℚ), duration := 1, string_index := si,
            fret := some (digitsToNat ds) }, c + ds.length)
  else
    let ghost : Option (ℕ × ℕ) :=
      if ch = '(' then
        let ds := digitsFrom row (c + 1)
        if ds ≠ [] ∧ row.getD (c + 1 + ds.length) ' ' = ')' ∧
            c + 1 + ds.length < row.length then
          some (digitsToNat ds, c + ds.length + 2)
        else none
      else none
    match ghost with
    | some (fret, c') =>
        (some { start := (c : ℚ), duration := 1, string_index := si,
                fret := some fret, is_ghost := true }, c')
    | none =>
        if ch.toLower = 'x' then
          (some { start := (c : ℚ), duration := 1, string_index := si,
                  fret := none, techniques := [.muted] }, c + 1)
        else (none, c + 1)

/-- The `while c < len(row)` scan of one string row in unknown-rhythm mode.
`fuel` strictly decreases; every step advances `c` by at least one, so
`fuel = row.length` (from `scanRow`) never runs out before `c ≥ row.length`. -/
def scanRowAux (si : ℕ) (row : List Char) : ℕ → ℕ → List NoteEvent
  | 0, _ => []
  | fuel + 1, c =>
      if c < row.length then
        match unknownStep si row c with
        | (some ne, c') => ne :: scanRowAux si row fuel c'
        | (none, c') => scanRowAux si row fuel c'
      else []

def scanRow (si : ℕ) (row : List Char) : List NoteEvent :=
  scanRowAux si row row.length 0

/-- Embeds the `for si, row in enumerate(string_slices)` loop collecting all rows' events. -/
def scanAll (si : ℕ) : List (List Char) → List NoteEvent
  | [] => []
  | row :: rest => scanRow si row ++ scanAll (si + 1) rest

/-- The sort key relation of `events.sort(key=lambda e: (e.start, e.string_index))`. -/
def neLe (a b : NoteEvent) : Prop :=
  a.start < b.start ∨ (a.start = b.start ∧ a.string_index ≤ b.string_index)

instance : DecidableRel neLe := fun a b => by unfold neLe; infer_instance

instance : IsTotal NoteEvent neLe := by
  constructor
  intro a b
  rcases lt_trichotomy a.start b.start with h | h | h
  · exact Or.inl (Or.inl h)
  · rcases Nat.le_total a.string_index b.string_index with h2 | h2
    · exact Or.inl (Or.inr ⟨h, h2⟩)
    · exact Or.inr (Or.inr ⟨h.symm, h2⟩)
  · exact Or.inr (Or.inl h)

instance : IsTrans NoteEvent neLe := by
  constructor
  rintro a b c (hab | ⟨hab, hab2⟩) (hbc | ⟨hbc, hbc2⟩)
  · exact Or.inl (hab.trans hbc)
  · exact Or.inl (hbc ▸ hab)
  · exact Or.inl (hab ▸ hbc)
  · exact Or.inr ⟨hab.trans hbc, hab2.trans hbc2⟩

/-- The events of a measure in unknown-rhythm mode (before pitch
assignment): scan all rows, then sort by `(start, string_index)`.  Keys are
pairwise distinct, so the sorted list is the one Python's stable sort
produces. -/
def unknownModeEvents (rows : List (List Char)) : List Event :=
  (List.insertionSort neLe (scanAll 0 rows)).map Event.note

/-! ## Duration-driven mode (`_parse_measure_events`, duration branch) -/

/-- Collect the notes matched at a duration-token column on every string
(`notes_at_col`), building the `NoteEvent`s with the token's start time and
duration. -/
def notesAtCol (time beats : ℚ) (token : DurationToken) (col : ℕ) :
    ℕ → List (List Char) → List NoteEvent
  | _, [] => []
  | si, row :: rest =>
      match parseNoteAt row col with
      | none => notesAtCol time beats token col (si + 1) rest
      | some info =>
          { start := time, duration := beats, string_index := si,
            fret := info.fret, techniques := info.techniques,
            tie := if token.tie then some ⟨true⟩ else none,
            grace := token.grace,
            is_ghost := info.ghost } :: notesAtCol time beats token col (si + 1) rest

/-- The `if not notes_at_col / elif len == 1 / else` event construction. -/
def eventFromNotes (time beats : ℚ) : List NoteEvent → Event
  | [] => .rest ⟨time, beats⟩
  | [ne] => .note ne
  | ne :: rest => .chord ⟨time, beats, ne :: rest⟩

/-- The duration-driven `while col < len(dur_slice)` walk.  `fuel` strictly
decreases and the column advances by `max 1 _ ≥ 1` per recognized token
(or by exactly one when no token matches), so `fuel = d.length` from
`durationModeEvents` never runs out before `col ≥ d.length`. -/
def durWalkAux (rows : List (List Char)) (ts : TimeSignature) (d : List Char) :
    ℕ → ℚ → ℕ → Except PErr (List Event)
  | 0, _, _ => .ok []
  | fuel + 1, time, col =>
      if col < d.length then
        match maybeParseDurationAt d col with
        | none => durWalkAux rows ts d fuel time (col + 1)
        | some (token, consumed) =>
            match durationTokenToBeats token ts with
            | .error e => .error e
            | .ok (token', beats) =>
                let ev := eventFromNotes time beats (notesAtCol time beats token' col 0 rows)
                match durWalkAux rows ts d fuel (time + beats) (col + consumed) with
                | .error e => .error e
                | .ok evs => .ok (ev :: evs)
      else .ok []

def durationModeEvents (rows : List (List Char)) (ts : TimeSignature)
    (d : List Char) : Except PErr (List Event) :=
  durWalkAux rows ts d d.length 0 0

/-- The token-recognition walk of the same column cursor: the list of
`(column, token, beats)` duration tokens recognized in `d`. -/
def durTokensAux (ts : TimeSignature) (d : List Char) :
    ℕ → ℕ → Except PErr (List (ℕ × DurationToken × ℚ))
  | 0, _ => .ok []
  | fuel + 1, col =>
      if col < d.length then
        match maybeParseDurationAt d col with
        | none => durTokensAux ts d fuel (col + 1)
        | some (token, consumed) =>
            match durationTokenToBeats token ts with
            | .error e => .error e
            | .ok (token', beats) =>
                match durTokensAux ts d fuel (col + consumed) with
                | .error e => .error e
                | .ok toks => .ok ((col, token', beats) :: toks)
      else .ok []

def durationTokens (ts : TimeSignature) (d : List Char) :
    Except PErr (List (ℕ × DurationToken × ℚ)) :=
  durTokensAux ts d d.length 0

/-! ## Pitch assignment (`_assign_pitches`, `_tuning_to_open_midi`) -/

/-- Embeds the `_NOTE_TO_SEMITONE` lookup with the `E` fallback of
`_tuning_to_open_midi` (`.get(key, _NOTE_TO_SEMITONE["E"])`). -/
def noteToSemitone (key : List Char) : ℕ :=
  if key = ['C'] then 0
  else if key = ['C', '#'] then 1
  else if key = ['D', 'B'] then 1
  else if key = ['D'] then 2
  else if key = ['D', '#'] then 3
  else if key = ['E', 'B'] then 3
  else if key = ['E'] then 4
  else if key = ['F'] then 5
  else if key = ['F', '#'] then 6
  else if key = ['G', 'B'] then 6
  else if key = ['G'] then 7
  else if key = ['G', '#'] then 8
  else if key = ['A', 'B'] then 8
  else if key = ['A'] then 9
  else if key = ['A', '#'] then 10
  else if key = ['B', 'B'] then 10
  else if key = ['B'] then 11
  else 4

/-- The per-position octave of `_tuning_to_open_midi`
(`default_octaves[i] if i < len(default_octaves) else 3`). -/
def octaveFor (stringCount i : ℕ) : ℕ :=
  if stringCount = 6 then [4, 3, 3, 3, 2, 2].getD i 3 else 4

/-- Open MIDI pitch of one tuning label at string position `i`. -/
def openMidiOfLabel (stringCount i : ℕ) (lab : List Char) : ℕ :=
  let name := (pyStrip lab).map Char.toUpper
  let key : List Char :=
    if 2 ≤ name.length ∧ (name.getD 1 ' ' = '#' ∨ name.getD 1 ' ' = 'B') then
      [name.getD 0 ' ', name.getD 1 ' ']
    else match name with
      | [] => ['E']
      | c :: _ => [c]
  12 * (octaveFor stringCount i + 1) + noteToSemitone key

/-- Embeds `_tuning_to_open_midi(labels)`. -/
def tuningToOpenMidi (labels : List (List Char)) : List ℕ :=
  (List.range labels.length).map fun i =>
    openMidiOfLabel labels.length i (labels.getD i [])

/-- Pitch update of one `NoteEvent` (`_assign_pitches` body). -/
def assignPitchNote (openPitches : List ℕ) (ne : NoteEvent) : NoteEvent :=
  match ne.fret with
  | none => { ne with pitch := none }
  | some f =>
      if ne.string_index < openPitches.length then
        { ne with pitch := some (openPitches.getD ne.string_index 0 + f) }
      else ne

/-- Embeds `_assign_pitches(measure, tuning)` applied to an event list. -/
def assignPitches (tuning : Tuning) (events : List Event) : List Event :=
  let openPitches := tuningToOpenMidi tuning.labels
  events.map fun ev =>
    match ev with
    | .note ne => .note (assignPitchNote openPitches ne)
    | .chord ce => .chord { ce with notes := ce.notes.map (assignPitchNote openPitches) }
    | .rest re => .rest re

/-- Embeds `_parse_measure_events`: both modes, followed by `_assign_pitches`. -/
def parseMeasureEvents (stringSlices : List (List Char))
    (durSlice : Option (List Char)) (tuning : Tuning) (ts : TimeSignature) :
    Except PErr (List Event) :=
  match durSlice with
  | none => .ok (assignPitches tuning (unknownModeEvents stringSlices))
  | some d =>
      match durationModeEvents stringSlices ts d with
      | .error e => .error e
      | .ok evs => .ok (assignPitches tuning evs)

/-! ## Line classifiers (`tab_parser.py` regex helpers)

The regular expressions are embedded as deterministic scanners; every
character class that precedes another pattern element is disjoint from it,
so greedy matching with backtracking coincides with maximal munch. -/

/-- The `(count, rest)` split of the longest prefix satisfying `p`. -/
def spanP (p : Char → Bool) (l : List Char) : ℕ × List Char :=
  ((l.takeWhile p).length, l.dropWhile p)

/-- The dash class `[-–—-−]` of `_TRIPLET_RE`: literal `-` (U+002D),
`–` (U+2013), and the range U+2014 (`—`) to U+2212 (`−`). -/
def isDashChar (c : Char) : Bool := c = '-' ∨ c = '–' ∨ ('—' ≤ c ∧ c ≤ '−')

/-- The pipe class `[|│]` of `_TRIPLET_RE`. -/
def isPipeChar (c : Char) : Bool := c = '|' ∨ c = '│'

/-- Length of a `_TRIPLET_RE` match (`[|│]\s*[-–—-−]+\s*3\s*[-–—-−]+\s*[|│]`)
starting at the head of `l`, if any. -/
def tripletMatchLen (l : List Char) : Option ℕ :=
  match l with
  | [] => none
  | c :: r =>
      if isPipeChar c then
        let (w1, r1) := spanP pyIsSpace r
        let (d1, r2) := spanP isDashChar r1
        if d1 = 0 then none
        else
          let (w2, r3) := spanP pyIsSpace r2
          match r3 with
          | '3' :: r4 =>
              let (w3, r5) := spanP pyIsSpace r4
              let (d2, r6) := spanP isDashChar r5
              if d2 = 0 then none
              else
                let (w4, r7) := spanP pyIsSpace r6
                match r7 with
                | c2 :: _ =>
                    if isPipeChar c2 then
                      some (1 + w1 + d1 + w2 + 1 + w3 + d2 + w4 + 1)
                    else none
                | [] => none
          | _ => none
      else none

/-- Embeds `_TRIPLET_RE.search(s) is not None`. -/
def tripletSearch : List Char → Bool
  | [] => false
  | c :: r => (tripletMatchLen (c :: r)).isSome || tripletSearch r

/-- Embeds `_TRIPLET_RE.finditer`: non-overlapping leftmost matches, as
`(m.start(), m.end() - 1)` pairs.  A match is at least 5 characters long, so
`fuel = l.length` suffices. -/
def tripletFindIterAux : ℕ → ℕ → List Char → List (ℕ × ℕ)
  | 0, _, _ => []
  | _, _, [] => []
  | fuel + 1, pos, c :: r =>
      match tripletMatchLen (c :: r) with
      | some k => (pos, pos + k - 1) :: tripletFindIterAux fuel (pos + k) ((c :: r).drop k)
      | none => tripletFindIterAux fuel (pos + 1) r

def tripletFindIter (l : List Char) : List (ℕ × ℕ) := tripletFindIterAux l.length 0 l

/-- Length of a `_PM_RE` match (`PM[-\s]*\|`) starting at the head of `l`. -/
def pmMatchLen (l : List Char) : Option ℕ :=
  match l with
  | 'P' :: 'M' :: r =>
      let (w, r1) := spanP (fun c => c = '-' ∨ pyIsSpace c) r
      match r1 with
      | '|' :: _ => some (2 + w + 1)
      | _ => none
  | _ => none

/-- Embeds `re.finditer(r"PM[-\s]*\|", ln)` as `(m.start(), m.end() - 1)` pairs. -/
def pmFindIterAux : ℕ → ℕ → List Char → List (ℕ × ℕ)
  | 0, _, _ => []
  | _, _, [] => []
  | fuel + 1, pos, c :: r =>
      match pmMatchLen (c :: r) with
      | some k => (pos, pos + k - 1) :: pmFindIterAux fuel (pos + k) ((c :: r).drop k)
      | none => pmFindIterAux fuel (pos + 1) r

def pmFindIter (l : List Char) : List (ℕ × ℕ) := pmFindIterAux l.length 0 l

/-- Embeds `_TIMESTAMP_RE` (`^\s*(\d+):(\d{2})\s*$`), returning `(mm, ss)`. -/
def parseTimestampLine (l : List Char) : Option (ℕ × ℕ) :=
  let r1 := l.dropWhile pyIsSpace
  let ds := r1.takeWhile pyIsDigit
  let r2 := r1.drop ds.length
  if ds = [] then none
  else
    match r2 with
    | ':' :: a :: b :: rest =>
        if pyIsDigit a ∧ pyIsDigit b ∧ rest.all pyIsSpace then
          some (digitsToNat ds, digitsToNat [a, b])
        else none
    | _ => none

/-- Embeds `_TS_RE` (`^\s*(\d+)\s*/\s*(\d+)\s*$`), returning `(num, den)`. -/
def parseTSLine (l : List Char) : Option (ℕ × ℕ) :=
  let r1 := l.dropWhile pyIsSpace
  let n1 := r1.takeWhile pyIsDigit
  let r2 := r1.drop n1.length
  if n1 = [] then none
  else
    let r3 := r2.dropWhile pyIsSpace
    match r3 with
    | '/' :: r4 =>
        let r5 := r4.dropWhile pyIsSpace
        let n2 := r5.takeWhile pyIsDigit
        let r6 := r5.drop n2.length
        if n2 ≠ [] ∧ r6.all pyIsSpace then some (digitsToNat n1, digitsToNat n2)
        else none
    | _ => none

def isNoteLetter (c : Char) : Bool :=
  ('A' ≤ c ∧ c ≤ 'G') ∨ ('a' ≤ c ∧ c ≤ 'g')

/-- Embeds `_STRING_LABELED_RE` (`^\s*([A-Ga-g])([#b])?\s*\|`): returns the label
characters (letter plus optional accidental) and the suffix of the line
starting at the matched `|` (Python's `ln[m.end() - 1:]`). -/
def matchStringLabeled (l : List Char) : Option (List Char × List Char) :=
  match l.dropWhile pyIsSpace with
  | [] => none
  | c :: r2 =>
      if isNoteLetter c then
        let (acc, r3) :=
          match r2 with
          | d :: r3' => if d = '#' ∨ d = 'b' then ([d], r3') else (([] : List Char), r2)
          | [] => (([] : List Char), r2)
        match r3.dropWhile pyIsSpace with
        | '|' :: r5 => some (c :: acc, '|' :: r5)
        | _ => none
      else none

/-- Embeds `_is_string_line(line)`. -/
def isStringLine (l : List Char) : Bool :=
  if (matchStringLabeled l).isSome then true
  else if (l.dropWhile pyIsSpace).headD ' ' = '|' then
    let s := pyStrip l
    if tripletSearch s then false
    else if ("PM".toList).isPrefixOf s then false
    else true
  else false

/-- Embeds `_is_annotation_or_duration(line)`. -/
def isAnnotationOrDuration (l : List Char) : Bool :=
  let s := pyStrip l
  if s = [] then false
  else if (parseTSLine s).isSome ∨ (parseTimestampLine s).isSome then true
  else if containsSeq "PM".toList s then true
  else if tripletSearch s then true
  else if s.any isDurationSymbol ∧ s.any (· = '|') then true
  else if s.any isDurationSymbol ∧ ¬ s.any (· = '|') then true
  else false

/-! ## Bar tokens (`_find_bar_tokens`, `_barline_from_token`) -/

/-- The token alternation `\|\|o|o\|\||\|\||\*\||\|` tried at one position
(longer tokens first). -/
def barMatchAt (l : List Char) : Option (List Char) :=
  if ("||o".toList).isPrefixOf l then some "||o".toList
  else if ("o||".toList).isPrefixOf l then some "o||".toList
  else if ("||".toList).isPrefixOf l then some "||".toList
  else if ("*|".toList).isPrefixOf l then some "*|".toList
  else if ("|".toList).isPrefixOf l then some "|".toList
  else none

/-- Embeds `_find_bar_tokens(s)`: `(start, end, token)` triples of the
non-overlapping leftmost matches. -/
def barFindIterAux : ℕ → ℕ → List Char → List (ℕ × ℕ × List Char)
  | 0, _, _ => []
  | _, _, [] => []
  | fuel + 1, pos, c :: r =>
      match barMatchAt (c :: r) with
      | some tok =>
          (pos, pos + tok.length, tok) ::
            barFindIterAux fuel (pos + tok.length) ((c :: r).drop tok.length)
      | none => barFindIterAux fuel (pos + 1) r

def barFindIter (l : List Char) : List (ℕ × ℕ × List Char) :=
  barFindIterAux l.length 0 l

/-- Embeds `_barline_from_token(tok)`. -/
def barlineFromToken (tok : List Char) : Barline :=
  if tok = "||o".toList then .repeatStart
  else if tok = "o||".toList then .repeatEnd
  else if tok = "||".toList then .double
  else if tok = "*|".toList then .doubleEnding
  else .single

/-! ## Header (`_parse_header`) -/

/-- Matches `^<key>:\s*(.+)$` (case-insensitive) on an already-stripped line;
the returned value is `m.group(1).strip()`.  For a stripped line the group
is nonempty exactly when some non-blank text follows the colon. -/
def matchHeaderValue (key : List Char) (l : List Char) : Option (List Char) :=
  if (key ++ [':']).isPrefixOf (l.map Char.toLower) then
    let v := pyStrip (l.drop (key.length + 1))
    if v = [] then none else some v
  else none

/-- Matches `^capo:\s*(\d+)\s*$` (case-insensitive) on a stripped line. -/
def matchCapoValue (l : List Char) : Option ℕ :=
  if ("capo:".toList).isPrefixOf (l.map Char.toLower) then
    let v := pyStrip (l.drop 5)
    if v ≠ [] ∧ v.all pyIsDigit then some (digitsToNat v) else none
  else none

/-- The header loop: returns `(title?, artist?, capo?, index of first
non-header line)`. -/
def parseHeaderAux : List (List Char) → ℕ → Option (List Char) →
    Option (List Char) → Option ℕ →
    Option (List Char) × Option (List Char) × Option ℕ × ℕ
  | [], i, t, a, c => (t, a, c, i)
  | ln :: rest, i, t, a, c =>
      let s := pyStrip ln
      if s = [] then parseHeaderAux rest (i + 1) t a c
      else
        match matchHeaderValue "title".toList s with
        | some v => parseHeaderAux rest (i + 1) (some v) a c
        | none =>
            match matchHeaderValue "artist".toList s with
            | some v => parseHeaderAux rest (i + 1) t (some v) c
            | none =>
                match matchCapoValue s with
                | some n => parseHeaderAux rest (i + 1) t a (some n)
                | none => (t, a, c, i)

/-- Embeds `_parse_header(lines)`.  The matched title/artist values are nonempty,
so Python's falsiness test `not title or not artist` coincides with the
`none` test. -/
def parseHeader (lines : List (List Char)) :
    Except PErr (List Char × List Char × Option ℕ × ℕ) :=
  match parseHeaderAux lines 0 none none none with
  | (some t, some a, c, i) => .ok (t, a, c, i)
  | _ => .error .missingHeader

/-! ## System blocks (`_collect_system_block`, `_parse_system_block`) -/

/-- Matches `^\s*(title|artist|capo)\s*:` (case-insensitive) on the raw line. -/
def matchesHeaderKeyLine (l : List Char) : Bool :=
  let low := (l.map Char.toLower).dropWhile pyIsSpace
  let checkKey (k : List Char) : Bool :=
    k.isPrefixOf low ∧ ((low.drop k.length).dropWhile pyIsSpace).headD ' ' = ':'
  checkKey "title".toList || checkKey "artist".toList || checkKey "capo".toList

/-- Phase 1 of `_collect_system_block`: leading annotation/duration lines.
Returns `none` when no system starts here, otherwise the collected prefix,
the next line number, and the unconsumed rest. -/
def collectPre (idx : ℕ) : List (List Char) →
    Option (List (ℕ × List Char) × ℕ × List (List Char))
  | [] => some ([], idx, [])
  | s :: rest =>
      if pyStrip s = [] then none
      else if (parseTimestampLine s).isSome then none
      else if isStringLine s then some ([], idx, s :: rest)
      else if isAnnotationOrDuration s ∨ (parseTSLine (pyStrip s)).isSome then
        match collectPre (idx + 1) rest with
        | none => none
        | some (blk, idx', rest') => some ((idx, s) :: blk, idx', rest')
      else none

/-- Phase 2 of `_collect_system_block`: string lines, optionally interleaved
with annotation lines, up to a terminator. -/
def collectStrings (idx : ℕ) : List (List Char) → List (ℕ × List Char)
  | [] => []
  | s :: rest =>
      if pyStrip s = [] then []
      else if (parseTimestampLine s).isSome then []
      else if matchesHeaderKeyLine s then []
      else if isStringLine s then (idx, s) :: collectStrings (idx + 1) rest
      else if isAnnotationOrDuration s ∨ (parseTSLine (pyStrip s)).isSome then
        (idx, s) :: collectStrings (idx + 1) rest
      else []

def countStringLines (block : List (ℕ × List Char)) : ℕ :=
  (block.filter fun p => isStringLine p.2).length

/-- Embeds `_collect_system_block(lines, start)` with `startNo` the 1-based number
of the first line; the number of consumed lines is the result's length. -/
def collectSystemBlock (startNo : ℕ) (lines : List (List Char)) :
    List (ℕ × List Char) :=
  match collectPre startNo lines with
  | none => []
  | some (pre, idx', rest) =>
      let strs := collectStrings idx' rest
      if countStringLines strs = 0 then [] else pre ++ strs

/-- Adjacent pairs of a list (the `for j in range(len(bar_matches) - 1)`
loop). -/
def adjacentPairs {α : Type} : List α → List (α × α)
  | [] => []
  | [_] => []
  | a :: b :: r => (a, b) :: adjacentPairs (b :: r)

/-- The per-measure construction loop of `_parse_system_block`. -/
def buildMeasures (contents : List (List Char)) (durationLine : Option (List Char))
    (tuning : Tuning) (ts : TimeSignature) :
    List ((ℕ × ℕ × List Char) × (ℕ × ℕ × List Char)) → Except PErr (List Measure)
  | [] => .ok []
  | ((_, lb, ltok), (ra, _, rtok)) :: rest =>
      let mStart := lb
      let mEnd := ra
      let slices := contents.map fun c => pySlice c mStart mEnd
      let durSlice := durationLine.map fun d => pySlice d mStart mEnd
      match parseMeasureEvents slices durSlice tuning ts with
      | .error e => .error e
      | .ok evs =>
          match buildMeasures contents durationLine tuning ts rest with
          | .error e => .error e
          | .ok ms =>
              .ok ({ barline_left := barlineFromToken ltok
                     barline_right := barlineFromToken rtok
                     time_signature := ts
                     events := evs
                     raw_columns := some (slices.headD []).length } :: ms)

/-- Embeds `_parse_system_block(block, base_line, effective_ts)`.  (The
`base_line` argument of the Python function is never read; warnings use the
line numbers stored with the string lines.) -/
def parseSystemBlock (block : List (ℕ × List Char)) (ts : TimeSignature) :
    Except PErr (TabSystem × List ParseWarning) :=
  let stringLines := block.filter fun p => isStringLine p.2
  let preLines := block.filter fun p => ¬ isStringLine p.2
  if stringLines = [] then .error .noStringLines
  else
    let labeled := stringLines.map fun p =>
      match matchStringLabeled p.2 with
      | some (lab, after) => (lab.map Char.toUpper, after)
      | none => (['?'], pyLStrip p.2)
    let labels0 := labeled.map (·.1)
    let contents0 := labeled.map (·.2)
    let labels :=
      if (labels0.all (· = ['?'])) ∧ labels0.length = 6 then
        [['E'], ['B'], ['G'], ['D'], ['A'], ['E']]
      else labels0
    let width := (contents0.map List.length).foldl max 0
    let contents := contents0.map (pyLJust · width)
    let durationLine :=
      match preLines.find? fun p => p.2.any isDurationSymbol with
      | some p => some (pyLJust p.2 width)
      | none => none
    let annotations := preLines.flatMap fun p =>
      if containsSeq "PM".toList p.2 then
        (pmFindIter p.2).map fun q => AnnotationSpan.mk "PM".toList q.1 q.2
      else []
    let tuplets := preLines.flatMap fun p =>
      (tripletFindIter p.2).map fun q => TupletSpan.mk 3 2 q.1 q.2
    let ref := contents.headD []
    let barMatches0 := barFindIter ref
    let barMatches :=
      if barMatches0.length < 2 then
        [(0, 1, "|".toList), (width - 1, width, "|".toList)]
      else barMatches0
    let refPositions := barMatches.map (·.1)
    let warns := ((contents.drop 1).zip (stringLines.drop 1)).filterMap fun pr =>
      let other := (barFindIter pr.1).map (·.1)
      if other ≠ [] ∧ other ≠ refPositions then
        some (ParseWarning.mk pr.2.1 .inconsistentBarlines)
      else none
    let tuning := Tuning.mk labels
    match buildMeasures contents durationLine tuning ts (adjacentPairs barMatches) with
    | .error e => .error e
    | .ok measures =>
        .ok ({ tuning := tuning
               measures := measures
               annotations := annotations
               tuplets := tuplets
               duration_line := durationLine
               raw_lines := preLines.map (·.2) ++ stringLines.map (·.2) }, warns)

/-! ## Sections (`_parse_sections`) and `parse_tab` -/

/-- Append the current section if it has at least one system
(`flush_section`). -/
def flushSection (secs : List Section) (timestamp : Option (ℕ × ℕ))
    (sig : Option TimeSignature) (systems : List TabSystem) : List Section :=
  if systems ≠ [] then secs ++ [⟨timestamp, sig, systems⟩] else secs

/-- The `while i < len(lines)` loop of `_parse_sections`.  Each iteration
either consumes one line or a nonempty system block, so
`fuel = lines.length + 1` never runs out before the list is exhausted. -/
def sectionsAux (fuel : ℕ) (idx : ℕ) (rem : List (List Char))
    (curTs : TimeSignature) (curTimestamp : Option (ℕ × ℕ))
    (curSig : Option TimeSignature) (curSystems : List TabSystem)
    (secs : List Section) (warns : List ParseWarning) :
    Except PErr (List Section × List ParseWarning) :=
  match fuel, rem with
  | 0, _ => .ok (flushSection secs curTimestamp curSig curSystems, warns)
  | _, [] => .ok (flushSection secs curTimestamp curSig curSystems, warns)
  | fuel + 1, raw :: rest =>
      if pyStrip raw = [] then
        sectionsAux fuel (idx + 1) rest curTs curTimestamp curSig curSystems secs warns
      else
        match parseTimestampLine raw with
        | some tsStamp =>
            sectionsAux fuel (idx + 1) rest curTs (some tsStamp) none []
              (flushSection secs curTimestamp curSig curSystems) warns
        | none =>
            match parseTSLine raw with
            | some (n, d) =>
                sectionsAux fuel (idx + 1) rest ⟨n, d⟩ curTimestamp
                  (if curSig = none then some ⟨n, d⟩ else curSig)
                  curSystems secs warns
            | none =>
                let block := collectSystemBlock (idx + 1) (raw :: rest)
                if block = [] then
                  sectionsAux fuel (idx + 1) rest curTs curTimestamp curSig
                    curSystems secs (warns ++ [⟨idx + 1, .unrecognizedLine⟩])
                else
                  match parseSystemBlock block curTs with
                  | .error e => .error e
                  | .ok (system, w2) =>
                      sectionsAux fuel (idx + block.length)
                        ((raw :: rest).drop block.length) curTs curTimestamp
                        curSig (curSystems ++ [system]) secs (warns ++ w2)

/-- Embeds `_parse_sections(lines)`. -/
def parseSections (lines : List (List Char)) :
    Except PErr (List Section × List ParseWarning) :=
  sectionsAux (lines.length + 1) 0 lines ⟨4, 4⟩ none none [] [] []

/-- Embeds `parse_tab(text)` on the already-split lines. -/
def parseTab (lines : List (List Char)) : Except PErr TabScore :=
  match parseHeader lines with
  | .error e => .error e
  | .ok (title, artist, capo, idx) =>
      match parseSections (lines.drop idx) with
      | .error e => .error e
      | .ok (secs, warns) =>
          .ok { title := title, artist := artist, capo := capo,
                sections := secs, warnings := warns }

/-! ## Render model (`tab_render_model.py`) -/

/-- Python `int(q)` on a `Fraction`: truncation toward zero. -/
def pyInt (q : ℚ) : ℤ := if q < 0 then -⌊-q⌋ else ⌊q⌋

/-- Python `round()` (round half to even), exact on `ℚ`.  (The source
rounds a `float`; all values reached by the claims are exactly
representable.) -/
def pyRound (q : ℚ) : ℤ :=
  let n := ⌊q⌋
  let r := q - n
  if r < 1/2 then n
  else if 1/2 < r then n + 1
  else if Even n then n else n + 1

/-- Embeds `_has_rhythm_mode(measure)`: nonempty events, all starts `< 64`. -/
def hasRhythmMode (m : Measure) : Bool :=
  let starts := m.events.map Event.start
  if starts.isEmpty then false else starts.all (· < 64)

/-- Embeds `_infer_measure_width(measure)`. -/
def inferMeasureWidth (m : Measure) : ℕ :=
  min (max (max 8 (m.events.length * 3)) 16) 96

/-- Embeds `measure.raw_columns or _infer_measure_width(measure)`: Python `or`
falls back to the inferred width for `None` *and* for `0`. -/
def measureWidth (m : Measure) : ℕ :=
  match m.raw_columns with
  | some w => if w = 0 then inferMeasureWidth m else w
  | none => inferMeasureWidth m

/-- Embeds `_make_time_to_col_mapper(measure, width)` applied to a time `t`. -/
def timeToCol (m : Measure) (width : ℕ) (t : ℚ) : ℤ :=
  if ¬ hasRhythmMode m then pyInt t
  else
    let total0 := (m.events.map Event.duration).sum
    let total := if total0 ≤ 0 then (4 : ℚ) else total0
    let x := t / total
    let c := pyRound (x * ((width : ℚ) - 1))
    max 0 (min ((width : ℤ) - 1) c)

/-- The column at which `_render_measure` places an event of `m`. -/
def renderEventCol (m : Measure) (ev : Event) : ℤ :=
  timeToCol m (measureWidth m) ev.start

/-! ## MIDI flattening (`midi_export.py`).  Seconds are embedded as `ℚ`
(the source uses `float`). -/

/-- Embeds `sec_per_beat = 60 / tempo_bpm`.  (`tempo = 0` raises
`ZeroDivisionError` in Python; in `ℚ` the division yields `0`.) -/
def secPerBeat (tempo : ℚ) : ℚ := 60 / tempo

/-- The `(duration, note_on, note_off)` triple generated for one pitched
note: `t_on = (t_abs + start) * sec_per_beat`,
`t_off = (t_abs + start + duration) * sec_per_beat`. -/
def noteTriple (spb tAbs : ℚ) (ne : NoteEvent) (p : ℕ) :
    ℚ × MidiEvent × MidiEvent :=
  (ne.duration,
   ⟨(tAbs + ne.start) * spb, .note_on, p, 90, 0⟩,
   ⟨(tAbs + ne.start + ne.duration) * spb, .note_off, p, 90, 0⟩)

/-- The triples of one note: one when a pitch is resolved, none otherwise
(`if ev.pitch is None: continue`). -/
def pitchedTriples (spb tAbs : ℚ) (ne : NoteEvent) :
    List (ℚ × MidiEvent × MidiEvent) :=
  match ne.pitch with
  | none => []
  | some p => [noteTriple spb tAbs ne p]

/-- The `(duration, note_on, note_off)` triples generated for the events of
one measure, in source order (the two `events.append` calls per pitched
note). -/
def measureTriples (spb tAbs : ℚ) (evs : List Event) :
    List (ℚ × MidiEvent × MidiEvent) :=
  evs.flatMap fun ev =>
    match ev with
    | .rest _ => []
    | .note ne => pitchedTriples spb tAbs ne
    | .chord ce => ce.notes.flatMap (pitchedTriples spb tAbs)

/-- The per-measure absolute-time advance (`if total > 0`). -/
def measureAdvance (m : Measure) : ℚ :=
  let total := (m.events.map Event.duration).sum
  if total > 0 then total else 0

def scoreTriplesAux (spb : ℚ) : ℚ → List Measure → List (ℚ × MidiEvent × MidiEvent)
  | _, [] => []
  | tAbs, m :: ms =>
      measureTriples spb tAbs m.events ++ scoreTriplesAux spb (tAbs + measureAdvance m) ms

/-- All measures of a score in document order. -/
def allMeasures (s : TabScore) : List Measure :=
  s.sections.flatMap fun sec => sec.systems.flatMap fun sys => sys.measures

def midiTriples (s : TabScore) (tempo : ℚ) : List (ℚ × MidiEvent × MidiEvent) :=
  scoreTriplesAux (secPerBeat tempo) 0 (allMeasures s)

def midiTypeRank : MidiType → ℕ
  | .note_on => 0
  | .note_off => 1

/-- The sort key relation of
`events.sort(key=lambda e: (e.time_sec, 0 if e.type == "note_on" else 1, e.pitch))`. -/
def midiLe (a b : MidiEvent) : Prop :=
  a.time_sec < b.time_sec ∨
    (a.time_sec = b.time_sec ∧
      (midiTypeRank a.type < midiTypeRank b.type ∨
        (midiTypeRank a.type = midiTypeRank b.type ∧ a.pitch ≤ b.pitch)))

instance : DecidableRel midiLe := fun a b => by unfold midiLe; infer_instance

instance : IsTotal MidiEvent midiLe := by
  constructor
  intro a b
  rcases lt_trichotomy a.time_sec b.time_sec with h | h | h
  · exact Or.inl (Or.inl h)
  · rcases lt_trichotomy (midiTypeRank a.type) (midiTypeRank b.type) with h2 | h2 | h2
    · exact Or.inl (Or.inr ⟨h, Or.inl h2⟩)
    · rcases Nat.le_total a.pitch b.pitch with h3 | h3
      · exact Or.inl (Or.inr ⟨h, Or.inr ⟨h2, h3⟩⟩)
      · exact Or.inr (Or.inr ⟨h.symm, Or.inr ⟨h2.symm, h3⟩⟩)
    · exact Or.inr (Or.inr ⟨h.symm, Or.inl h2⟩)
  · exact Or.inr (Or.inl h)

instance : IsTrans MidiEvent midiLe := by
  constructor
  rintro a b c (hab | ⟨hab, hab2⟩) (hbc | ⟨hbc, hbc2⟩)
  · exact Or.inl (hab.trans hbc)
  · exact Or.inl (hbc ▸ hab)
  · exact Or.inl (hab ▸ hbc)
  · refine Or.inr ⟨hab.trans hbc, ?_⟩
    rcases hab2 with h2 | ⟨h2, h3⟩ <;> rcases hbc2 with h4 | ⟨h4, h5⟩
    · exact Or.inl (h2.trans h4)
    · exact Or.inl (h4 ▸ h2)
    · exact Or.inl (h2 ▸ h4)
    · exact Or.inr ⟨h2.trans h4, h3.trans h5⟩

/-- Embeds `to_midi_events(score, tempo_bpm)`: the generated on/off markers,
sorted. -/
def toMidiEvents (s : TabScore) (tempo : ℚ) : List MidiEvent :=
  List.insertionSort midiLe
    ((midiTriples s tempo).flatMap fun tr => [tr.2.1, tr.2.2])

/-- Number of pitched notes (notes with a resolved pitch) of one event. -/
def eventPitchedCount : Event → ℕ
  | .rest _ => 0
  | .note ne => if ne.pitch.isSome then 1 else 0
  | .chord ce => (ce.notes.filter fun ne => ne.pitch.isSome).length

/-- Number of pitched notes of a whole score. -/
def pitchedCount (s : TabScore) : ℕ :=
  ((allMeasures s).map fun m => (m.events.map eventPitchedCount).sum).sum

def onCount (l : List MidiEvent) : ℕ := (l.filter fun e => e.type = MidiType.note_on).length

def offCount (l : List MidiEvent) : ℕ := (l.filter fun e => e.type = MidiType.note_off).length

/-! ## Specification-side definitions

These follow the wording of the specification (not the source) and are
compared against the embedded code by the refinement theorems below. -/

/-- Spec side, duration-driven mode: "duration-driven mode emits exactly one
event (Note, Chord, or Rest) per recognized duration token, … all sharing
the token's start time and duration.  The running time cursor advances by
the resolved beat length after each token."  One event is produced per
token of the list, and the cursor advances by the token's beat length. -/
def eventsOfTokens (rows : List (List Char)) :
    ℚ → List (ℕ × DurationToken × ℚ) → List Event
  | _, [] => []
  | time, (col, tok, beats) :: rest =>
      eventFromNotes time beats (notesAtCol time beats tok col 0 rows) ::
        eventsOfTokens rows (time + beats) rest

/-- Number of string rows holding a note token at column `col` ("zero
matches across all strings", "exactly one", "two or more"). -/
def matchCount (rows : List (List Char)) (col : ℕ) : ℕ :=
  (rows.filter fun row => (parseNoteAt row col).isSome).length

/-- Spec side, measure rendering: sort key on events,
`(start, string_index)`. -/
def evLe (a b : Event) : Prop :=
  a.start < b.start ∨ (a.start = b.start ∧ a.stringIndexD ≤ b.stringIndexD)

/-- Spec side, unknown-rhythm mode: "a multi-digit fret number, a ghost-note
marker `(<digits>)`, or a mute marker (`x`/`X`)" begins at column `c` of
`row`. -/
def unknownTokenAt (row : List Char) (c : ℕ) : Prop :=
  c < row.length ∧
    (pyIsDigit (row.getD c ' ') = true ∨
      (row.getD c ' ' = '(' ∧
        digitsFrom row (c + 1) ≠ [] ∧
        row.getD (c + 1 + (digitsFrom row (c + 1)).length) ' ' = ')' ∧
        c + 1 + (digitsFrom row (c + 1)).length < row.length) ∨
      (row.getD c ' ').toLower = 'x')

/-! ## Concrete inputs used by counterexamples and witnesses -/

/-- Beats of a duration token given as raw text (`_parse_duration_token`
followed by `_duration_token_to_beats`). -/
def tokenBeats (raw : List Char) (ts : TimeSignature) : Option ℚ :=
  match durationTokenToBeats (parseDurationToken raw) ts with
  | .ok (_, b) => some b
  | .error _ => none

/-- Input of the C5 counterexample: a headered tab with one unlabeled string
line whose fret token sits at column 4 of a 15-column measure. -/
def c5Lines : List (List Char) :=
  ["title: T", "artist: A", "", "|----5----------|"].map String.toList

/-- Holds iff parsing `c5Lines` succeeds with a single system without a
duration line whose single measure (4/4, i.e. 4 beats) contains exactly one
event with `start + duration = 5 > 4`. -/
def c5Check : Bool :=
  match parseTab c5Lines with
  | .ok score =>
      match score.sections with
      | [sec] =>
          match sec.systems with
          | [sys] =>
              (sys.duration_line = none) &&
                (match sys.measures with
                 | [m] =>
                     (m.time_signature = ⟨4, 4⟩) &&
                       (match m.events with
                        | [ev] => (ev.start + ev.duration = (5 : ℚ)) &&
                            ((5 : ℚ) > (m.time_signature.numerator : ℚ) *
                              (4 / (m.time_signature.denominator : ℚ)))
                        | _ => false)
                 | _ => false)
          | _ => false
      | _ => false
  | .error _ => false

/-- Failing input of C6: valid header, a `4/0` time-signature line, and a
duration line containing the multi-measure-rest token `Wx2`, which makes
`_duration_token_to_beats` evaluate `Fraction(4, 0)`. -/
def c6Lines : List (List Char) :=
  ["title: T", "artist: A", "4/0", " Wx2--", "|------|"].map String.toList

/-- Holds iff the header of `c6Lines` parses (title and artist present) yet
`parse_tab` aborts with the division-by-zero error. -/
def c6Check : Bool :=
  (match parseHeader c6Lines with | .ok _ => true | .error _ => false) &&
    (match parseTab c6Lines with | .error .zeroDivision => true | _ => false)

/-- Measure of the C1 counterexample: two notes with starts `0` and `2`
(both `< 64`), durations `2`, stored width `9`. -/
def c1Measure : Measure :=
  { barline_left := .single, barline_right := .single, time_signature := ⟨4, 4⟩,
    events := [.note { start := 0, duration := 2, string_index := 0, fret := some 0 },
               .note { start := 2, duration := 2, string_index := 0, fret := some 0 }],
    raw_columns := some 9 }

/-- A measure holding one `NoteEvent` with start 0, duration 1 beat,
pitch 64. -/
def singleNoteMeasure : Measure where
  barline_left := .single
  barline_right := .single
  time_signature := ⟨4, 4⟩
  events := [.note { start := 0, duration := 1, string_index := 0,
                     fret := some 0, pitch := some 64 }]

/-- Score of the C9 concrete example: one `NoteEvent`, start 0, duration 1
beat, pitch 64. -/
def c9Score : TabScore where
  title := ['T']
  artist := ['A']
  sections := [{ systems := [{ tuning := ⟨[['E']]⟩, measures := [singleNoteMeasure] }] }]

/-- Score of the C10 counterexample (same single pitched note). -/
def c10Score : TabScore where
  title := ['T']
  artist := ['A']
  sections := [{ systems := [{ tuning := ⟨[['E']]⟩, measures := [singleNoteMeasure] }] }]

/-- The single note event parsed in unknown-rhythm mode from the row
`"-3-"` with tuning `["E"]` (fret 3 at column 1, open E4 = 64, pitch 67).
Used by the witnesses of C3 and C5. -/
def c3Note : NoteEvent :=
  { start := 1, duration := 1, string_index := 0, fret := some 3, pitch := some 67 }

end Tabulator

namespace Tabulator

/-! ## Basic sanity checks of the embedding (values taken from the
repository's own test suite) -/

example : tokenBeats "Q.".toList ⟨4, 4⟩ = some (3/2) := by decide
example : pyRound (5/2) = 2 := by decide
example : pyRound (7/2) = 4 := by decide
example : pyInt (-5/2 : ℚ) = -2 := by decide
example : (⌊(5 : ℚ)/2⌋ : ℤ) = 2 := by decide
example : timeToCol c1Measure 9 2 = 4 := by decide
example : toMidiEvents c9Score 120 =
    [⟨0, .note_on, 64, 90, 0⟩, ⟨1/2, .note_off, 64, 90, 0⟩] := by decide

/-! ## Claim C4 — duration-token-to-beats equations -/

/-- Claim C4 (confirmed).  Duration-token-to-beats conversion satisfies the stated
equations: `Q.` yields 3/2 beats, `Q..` yields 7/4 beats, lowercase `q`
yields 1/2 beat (staccato halving of 1 beat), and `Wx2` under a 3/4 time
signature yields 6 beats.  (`Q.`, `Q..` and `q` are independent of the time
signature, which only enters through the multi-measure-rest branch.) -/
theorem c4_duration_beats_equations :
    (∀ ts : TimeSignature, tokenBeats "Q.".toList ts = some (3/2)) ∧
    (∀ ts : TimeSignature, tokenBeats "Q..".toList ts = some (7/4)) ∧
    (∀ ts : TimeSignature, tokenBeats "q".toList ts = some (1/2)) ∧
    tokenBeats "Wx2".toList ⟨3, 4⟩ = some 6 :=
  ⟨fun _ => rfl, fun _ => rfl, fun _ => rfl, by decide⟩

/-! ## Claim C7 — trailing dots of the duration tokenizer -/

/-- Claim C7 (corrected), counterexample.  The tokenizer does not stop after two dots:
on `"Q..."` it consumes all three dots and produces a token with
`dotted = 3 ∉ {0, 1, 2}`. -/
theorem c7_counterexample :
    (maybeParseDurationAt "Q...".toList 0).map (fun p => (p.1.dotted, p.2)) =
      some (3, 4) ∧ ¬ ((3 : ℕ) = 0 ∨ (3 : ℕ) = 1 ∨ (3 : ℕ) = 2) := by decide

private lemma takeWhile_replicate_self {p : Char → Bool} {c : Char}
    (h : p c = true) (n : ℕ) :
    (List.replicate n c).takeWhile p = List.replicate n c := by
  induction n with
  | zero => rfl
  | succ n ih => simp [List.replicate_succ, List.takeWhile_cons, h, ih]

private lemma count_dot_replicate (n : ℕ) :
    ('Q' :: List.replicate n '.').count '.' = n := by
  induction n with
  | zero => rfl
  | succ n ih => simpa [List.replicate_succ, List.count_cons] using ih

private lemma filter_ne_dot_replicate (n : ℕ) :
    (('Q' :: List.replicate n '.').filter (· ≠ '.')) = ['Q'] := by
  induction n with
  | zero => rfl
  | succ n ih => simpa [List.replicate_succ, List.filter_cons] using ih

/-- Claim C7 (corrected), amended.  The dots loop of `_maybe_parse_duration_at` consumes
*every* trailing dot: for each `n`, the token recognized in `Q` followed by
`n` dots has dot count exactly `n` (not clamped to 2) and consumes `n + 1`
columns. -/
theorem c7_all_dots_consumed (n : ℕ) :
    maybeParseDurationAt ('Q' :: List.replicate n '.') 0 =
      some ({ raw := 'Q' :: List.replicate n '.', symbol := 'Q', dotted := n },
            n + 1) := by
  have hdots : ((('Q' :: List.replicate n '.').drop 1).takeWhile (· = '.')) =
      List.replicate n '.' := by
    simpa using takeWhile_replicate_self (p := (· = '.')) (by decide) n
  unfold maybeParseDurationAt
  rw [if_neg (by simp [List.length_replicate])]
  simp only [List.getD_cons_zero, List.singleton_append]
  rw [if_neg (by decide), if_pos (by decide)]
  simp only [hdots, List.length_replicate, List.singleton_append]
  rw [if_neg (fun h => by simp [List.length_replicate] at h; omega)]
  have hmax : (1 : ℕ) ⊔ (0 + 1 + n - 0) = n + 1 := by omega
  rw [hmax]
  unfold parseDurationToken
  simp only [List.headD_cons]
  rw [if_neg (by decide)]
  simp only [count_dot_replicate, filter_ne_dot_replicate]
  rfl

/-! ## Unknown-rhythm mode scanning: characterization lemmas -/

private lemma digitsFrom_length_pos {row : List Char} {c : ℕ}
    (hc : c < row.length) (hd : pyIsDigit (row.getD c ' ') = true) :
    0 < (digitsFrom row c).length := by
  unfold digitsFrom
  rw [List.getD_eq_getElem _ _ hc] at hd
  rw [List.drop_eq_getElem_cons hc, List.takeWhile_cons]
  simp [hd]

private lemma unknownStep_some {si : ℕ} {row : List Char} {c : ℕ} {ne : NoteEvent}
    {c' : ℕ} (hc : c < row.length) (h : unknownStep si row c = (some ne, c')) :
    ne.string_index = si ∧ ne.duration = 1 ∧ ne.start = (c : ℚ) ∧
      unknownTokenAt row c ∧ c < c' := by
  unfold unknownStep at h
  by_cases h1 : pyIsDigit (row.getD c ' ')
  · rw [if_pos h1] at h
    simp only [Prod.mk.injEq, Option.some.injEq] at h
    obtain ⟨rfl, rfl⟩ := h
    refine ⟨rfl, rfl, rfl, ⟨hc, Or.inl h1⟩, ?_⟩
    have := digitsFrom_length_pos hc h1
    omega
  · rw [if_neg h1] at h
    by_cases h2 : row.getD c ' ' = '('
    · by_cases h3 : digitsFrom row (c + 1) ≠ [] ∧
          row.getD (c + 1 + (digitsFrom row (c + 1)).length) ' ' = ')' ∧
          c + 1 + (digitsFrom row (c + 1)).length < row.length
      · rw [if_pos h2, if_pos h3] at h
        simp only [Prod.mk.injEq, Option.some.injEq] at h
        obtain ⟨rfl, rfl⟩ := h
        exact ⟨rfl, rfl, rfl, ⟨hc, Or.inr (Or.inl ⟨h2, h3⟩)⟩, by omega⟩
      · rw [if_pos h2, if_neg h3] at h
        by_cases h4 : (row.getD c ' ').toLower = 'x'
        · rw [if_pos h4] at h
          simp only [Prod.mk.injEq, Option.some.injEq] at h
          obtain ⟨rfl, rfl⟩ := h
          exact ⟨rfl, rfl, rfl, ⟨hc, Or.inr (Or.inr h4)⟩, by omega⟩
        · rw [if_neg h4] at h
          simp at h
    · rw [if_neg h2] at h
      by_cases h4 : (row.getD c ' ').toLower = 'x'
      · rw [if_pos h4] at h
        simp only [Prod.mk.injEq, Option.some.injEq] at h
        obtain ⟨rfl, rfl⟩ := h
        exact ⟨rfl, rfl, rfl, ⟨hc, Or.inr (Or.inr h4)⟩, by omega⟩
      · rw [if_neg h4] at h
        simp at h

private lemma scanRowAux_mem {si : ℕ} {row : List Char} :
    ∀ {fuel c : ℕ} {ne : NoteEvent}, ne ∈ scanRowAux si row fuel c →
      ne.string_index = si ∧ ne.duration = 1 ∧
        ∃ c' : ℕ, ne.start = (c' : ℚ) ∧ unknownTokenAt row c' := by
  intro fuel
  induction fuel with
  | zero => intro c ne h; simp [scanRowAux] at h
  | succ fuel ih =>
      intro c ne h
      rw [scanRowAux] at h
      by_cases hc : c < row.length
      · rw [if_pos hc] at h
        rcases hs : unknownStep si row c with ⟨ono, c2⟩
        rw [hs] at h
        cases ono with
        | some ne0 =>
            rcases List.mem_cons.mp h with rfl | h2
            · obtain ⟨h1, h2, h3, h4, -⟩ := unknownStep_some hc hs
              exact ⟨h1, h2, c, h3, h4⟩
            · exact ih h2
        | none => exact ih h
      · rw [if_neg hc] at h
        simp at h

private lemma scanRow_mem {si : ℕ} {row : List Char} {ne : NoteEvent}
    (h : ne ∈ scanRow si row) :
    ne.string_index = si ∧ ne.duration = 1 ∧
      ∃ c' : ℕ, ne.start = (c' : ℚ) ∧ unknownTokenAt row c' :=
  scanRowAux_mem h

private lemma scanAll_mem :
    ∀ (rows : List (List Char)) (si : ℕ) (ne : NoteEvent), ne ∈ scanAll si rows →
      si ≤ ne.string_index ∧ ne.string_index - si < rows.length ∧
        ne.duration = 1 ∧
        ∃ c' : ℕ, ne.start = (c' : ℚ) ∧
          unknownTokenAt (rows.getD (ne.string_index - si) []) c'
  | [], si, ne, h => by simp [scanAll] at h
  | row :: rest, si, ne, h => by
      rw [scanAll] at h
      rcases List.mem_append.mp h with h1 | h1
      · obtain ⟨hsi, hdur, c', hstart, htok⟩ := scanRow_mem h1
        subst hsi
        refine ⟨le_refl _, by simp, hdur, c', hstart, ?_⟩
        simpa using htok
      · obtain ⟨hsi, hlen, hdur, c', hstart, htok⟩ := scanAll_mem rest (si + 1) ne h1
        refine ⟨by omega, by simp; omega, hdur, c', hstart, ?_⟩
        have hidx : ne.string_index - si = (ne.string_index - (si + 1)) + 1 := by omega
        rw [hidx]
        simpa using htok

private lemma assignPitchNote_fields (op : List ℕ) (ne : NoteEvent) :
    (assignPitchNote op ne).start = ne.start ∧
    (assignPitchNote op ne).duration = ne.duration ∧
    (assignPitchNote op ne).string_index = ne.string_index ∧
    (assignPitchNote op ne).fret = ne.fret := by
  unfold assignPitchNote
  cases hf : ne.fret with
  | none => simp
  | some f => by_cases hi : ne.string_index < op.length <;> simp [hi, hf]

/-! ## Claim C3 — unknown-rhythm mode events -/

/-- Claim C3 (confirmed).  In unknown-rhythm mode (no duration line), every
event extracted from a measure is a `NoteEvent` — never a `RestEvent` or
`ChordEvent` — of duration exactly 1 beat whose start is the exact integer
column index at which a multi-digit fret number, a ghost marker
`(<digits>)`, or a mute marker `x`/`X` begins (`unknownTokenAt`), and the
measure's merged event sequence is sorted by `(start, string_index)`. -/
theorem c3_unknown_mode_events (rows : List (List Char)) (tuning : Tuning)
    (ts : TimeSignature) (evs : List Event)
    (h : parseMeasureEvents rows none tuning ts = Except.ok evs) :
    (∀ e ∈ evs, ∃ ne : NoteEvent, e = Event.note ne ∧ ne.duration = 1 ∧
      ne.string_index < rows.length ∧
      ∃ c : ℕ, ne.start = (c : ℚ) ∧
        unknownTokenAt (rows.getD ne.string_index []) c) ∧
    List.Sorted evLe evs := by
  unfold parseMeasureEvents at h
  obtain rfl : assignPitches tuning (unknownModeEvents rows) = evs := Except.ok.inj h
  constructor
  · intro e he
    unfold assignPitches at he
    obtain ⟨ev0, hev0, rfl⟩ := List.mem_map.mp he
    unfold unknownModeEvents at hev0
    obtain ⟨ne0, hne0, rfl⟩ := List.mem_map.mp hev0
    have hne0' : ne0 ∈ scanAll 0 rows := (List.mem_insertionSort neLe).mp hne0
    obtain ⟨-, hlen, hdur, c, hstart, htok⟩ := scanAll_mem rows 0 ne0 hne0'
    obtain ⟨f1, f2, f3, -⟩ :=
      assignPitchNote_fields (tuningToOpenMidi tuning.labels) ne0
    refine ⟨assignPitchNote (tuningToOpenMidi tuning.labels) ne0, rfl, ?_, ?_,
      c, ?_, ?_⟩
    · rw [f2, hdur]
    · rw [f3]; simpa using hlen
    · rw [f1, hstart]
    · rw [f3]; simpa using htok
  · have hs : List.Sorted neLe (List.insertionSort neLe (scanAll 0 rows)) :=
      List.sorted_insertionSort neLe _
    unfold assignPitches unknownModeEvents
    rw [List.map_map, List.Sorted, List.pairwise_map]
    refine hs.imp ?_
    intro a b hab
    obtain ⟨fa1, -, fa3, -⟩ := assignPitchNote_fields (tuningToOpenMidi tuning.labels) a
    obtain ⟨fb1, -, fb3, -⟩ := assignPitchNote_fields (tuningToOpenMidi tuning.labels) b
    show evLe (Event.note (assignPitchNote _ a)) (Event.note (assignPitchNote _ b))
    unfold evLe
    simp only [Event.start, Event.stringIndexD, fa1, fa3, fb1, fb3]
    exact hab

/-- Witness for C3: the theorem applied to the concrete one-string measure
`"-3-"`, whose single extracted event is the fret-3 note at column 1. -/
theorem c3_unknown_mode_events_witness :
    (∀ e ∈ [Event.note c3Note],
      ∃ ne : NoteEvent, e = Event.note ne ∧ ne.duration = 1 ∧
        ne.string_index < ["-3-".toList].length ∧
        ∃ c : ℕ, ne.start = (c : ℚ) ∧
          unknownTokenAt (["-3-".toList].getD ne.string_index []) c) ∧
    List.Sorted evLe [Event.note c3Note] :=
  c3_unknown_mode_events ["-3-".toList] ⟨[['E']]⟩ ⟨4, 4⟩ _ (by rfl)

/-! ## Claim C5 — start + duration versus the measure length -/

/-- Claim C5 (corrected), counterexample.  Parsing the headered tab with the
single string line `|----5----------|` yields one unknown-rhythm-mode event
with `start + duration = 5`, strictly greater than the 4-beat length derived
from the measure's 4/4 time signature, although no duration line (hence no
multi-measure-rest token) exists in the input. -/
theorem c5_counterexample : c5Check = true := by decide

/-- Claim C5 (corrected), amended.  What the code guarantees instead: in
unknown-rhythm mode, `start + duration` of every extracted event is bounded
by the measure's raw column width (the common length of the string-line
slices), not by the time-signature-derived length. -/
theorem c5_unknown_mode_width_bound (rows : List (List Char)) (tuning : Tuning)
    (ts : TimeSignature) (w : ℕ) (hw : ∀ r ∈ rows, r.length ≤ w) :
    ∀ evs, parseMeasureEvents rows none tuning ts = Except.ok evs →
      ∀ e ∈ evs, e.start + e.duration ≤ (w : ℚ) := by
  intro evs hevs e he
  unfold parseMeasureEvents at hevs
  obtain rfl : assignPitches tuning (unknownModeEvents rows) = evs :=
    Except.ok.inj hevs
  unfold assignPitches at he
  obtain ⟨ev0, hev0, rfl⟩ := List.mem_map.mp he
  unfold unknownModeEvents at hev0
  obtain ⟨ne0, hne0, rfl⟩ := List.mem_map.mp hev0
  have hne0' : ne0 ∈ scanAll 0 rows := (List.mem_insertionSort neLe).mp hne0
  obtain ⟨-, hlen, hdur, c, hstart, htok⟩ := scanAll_mem rows 0 ne0 hne0'
  obtain ⟨f1, f2, -, -⟩ :=
    assignPitchNote_fields (tuningToOpenMidi tuning.labels) ne0
  show (Event.note _).start + (Event.note _).duration ≤ (w : ℚ)
  simp only [Event.start, Event.duration, f1, f2, hstart, hdur]
  simp only [Nat.sub_zero] at htok
  have hsi : ne0.string_index < rows.length := by simpa using hlen
  have hrow : rows.getD ne0.string_index [] ∈ rows := by
    rw [List.getD_eq_getElem _ _ hsi]
    exact List.getElem_mem _
  have hcw : c + 1 ≤ w := by
    have h1 := htok.1
    have h2 := hw _ hrow
    omega
  exact_mod_cast hcw

/-- Witness for the amended C5 at the concrete measure `"-3-"` of width 3. -/
theorem c5_unknown_mode_width_bound_witness :
    (Event.note c3Note).start + (Event.note c3Note).duration ≤ ((3 : ℕ) : ℚ) :=
  c5_unknown_mode_width_bound ["-3-".toList] ⟨[['E']]⟩ ⟨4, 4⟩ 3 (by decide)
    [Event.note c3Note] (by rfl) (Event.note c3Note) (by decide)

/-! ## Claim C2 — duration-driven mode: one event per recognized token -/

private lemma notesAtCol_length (time beats : ℚ) (tok : DurationToken) (col : ℕ) :
    ∀ (rows : List (List Char)) (si : ℕ),
      (notesAtCol time beats tok col si rows).length = matchCount rows col
  | [], _ => rfl
  | row :: rest, si => by
      have ih := notesAtCol_length time beats tok col rest (si + 1)
      cases h : parseNoteAt row col with
      | none =>
          simp only [notesAtCol, h]
          simpa [matchCount, List.filter_cons, h] using ih
      | some info =>
          simp only [notesAtCol, h, List.length_cons]
          simpa [matchCount, List.filter_cons, h] using ih

private lemma notesAtCol_mem (time beats : ℚ) (tok : DurationToken) (col : ℕ) :
    ∀ (rows : List (List Char)) (si : ℕ) (ne : NoteEvent),
      ne ∈ notesAtCol time beats tok col si rows →
        ne.start = time ∧ ne.duration = beats
  | [], _, ne, h => by simp [notesAtCol] at h
  | row :: rest, si, ne, h => by
      unfold notesAtCol at h
      cases hp : parseNoteAt row col with
      | none =>
          rw [hp] at h
          exact notesAtCol_mem time beats tok col rest (si + 1) ne h
      | some info =>
          rw [hp] at h
          rcases List.mem_cons.mp h with rfl | h2
          · exact ⟨rfl, rfl⟩
          · exact notesAtCol_mem time beats tok col rest (si + 1) ne h2

private lemma eventsOfTokens_length (rows : List (List Char)) :
    ∀ (toks : List (ℕ × DurationToken × ℚ)) (time : ℚ),
      (eventsOfTokens rows time toks).length = toks.length
  | [], _ => rfl
  | (col, tok, beats) :: rest, time => by
      unfold eventsOfTokens
      simp [eventsOfTokens_length rows rest (time + beats)]

private lemma durWalk_tokens_corr (rows : List (List Char)) (ts : TimeSignature)
    (d : List Char) :
    ∀ (fuel col : ℕ) (time : ℚ),
      durWalkAux rows ts d fuel time col =
        (durTokensAux ts d fuel col).map (eventsOfTokens rows time) := by
  intro fuel
  induction fuel with
  | zero => intro col time; rfl
  | succ fuel ih =>
      intro col time
      rw [durWalkAux, durTokensAux]
      by_cases hc : col < d.length
      · rw [if_pos hc, if_pos hc]
        cases hm : maybeParseDurationAt d col with
        | none => exact ih (col + 1) time
        | some p =>
            obtain ⟨token, consumed⟩ := p
            cases hb : durationTokenToBeats token ts with
            | error e => simp [hb, Except.map]
            | ok q =>
                obtain ⟨token', beats⟩ := q
                simp only [hb]
                rw [ih (col + consumed) (time + beats)]
                cases ht : durTokensAux ts d fuel (col + consumed) with
                | error e => simp [Except.map]
                | ok toks => simp [Except.map, eventsOfTokens]
      · rw [if_neg hc, if_neg hc]; rfl

/-- Claim C2 (confirmed).  In duration-driven mode the event walk is exactly
the token-recognition walk mapped through the one-event-per-token
specification-side constructor `eventsOfTokens` (which starts one event per
token at the running time cursor and advances the cursor by the token's
resolved beat length); consequently the emitted event count equals the
recognized token count, and the event at a token's column is a `RestEvent`,
`NoteEvent` or `ChordEvent` according as zero, one, or at least two string
rows match a note token at that column — all produced notes sharing the
token's start time and duration. -/
theorem c2_duration_mode_events (rows : List (List Char)) (ts : TimeSignature)
    (d : List Char) :
    durationModeEvents rows ts d =
      (durationTokens ts d).map (eventsOfTokens rows 0) ∧
    (∀ (time : ℚ) (toks : List (ℕ × DurationToken × ℚ)),
      (eventsOfTokens rows time toks).length = toks.length) ∧
    (∀ evs toks, durationModeEvents rows ts d = Except.ok evs →
      durationTokens ts d = Except.ok toks → evs.length = toks.length) ∧
    (∀ (time beats : ℚ) (tok : DurationToken) (col : ℕ),
      (matchCount rows col = 0 →
        eventFromNotes time beats (notesAtCol time beats tok col 0 rows) =
          Event.rest ⟨time, beats⟩) ∧
      (matchCount rows col = 1 →
        ∃ ne : NoteEvent,
          eventFromNotes time beats (notesAtCol time beats tok col 0 rows) =
            Event.note ne ∧ ne.start = time ∧ ne.duration = beats) ∧
      (2 ≤ matchCount rows col →
        ∃ ns : List NoteEvent,
          eventFromNotes time beats (notesAtCol time beats tok col 0 rows) =
            Event.chord ⟨time, beats, ns⟩ ∧ ns.length = matchCount rows col ∧
          ∀ ne ∈ ns, ne.start = time ∧ ne.duration = beats)) := by
  have hcorr : durationModeEvents rows ts d =
      (durationTokens ts d).map (eventsOfTokens rows 0) :=
    durWalk_tokens_corr rows ts d d.length 0 0
  refine ⟨hcorr, fun time toks => eventsOfTokens_length rows toks time, ?_, ?_⟩
  · intro evs toks hevs htoks
    rw [hcorr, htoks] at hevs
    have h2 : eventsOfTokens rows 0 toks = evs := Except.ok.inj hevs
    rw [← h2, eventsOfTokens_length rows]
  · intro time beats tok col
    have hlen := notesAtCol_length time beats tok col rows 0
    have hmem := notesAtCol_mem time beats tok col rows 0
    refine ⟨?_, ?_, ?_⟩
    · intro h0
      have hnil : notesAtCol time beats tok col 0 rows = [] :=
        List.length_eq_zero.mp (by rw [hlen, h0])
      rw [hnil]; rfl
    · intro h1
      obtain ⟨ne, hne⟩ : ∃ ne, notesAtCol time beats tok col 0 rows = [ne] :=
        List.length_eq_one.mp (by rw [hlen, h1])
      obtain ⟨hs, hd⟩ := hmem ne (by rw [hne]; exact List.mem_singleton_self ne)
      exact ⟨ne, by rw [hne]; rfl, hs, hd⟩
    · intro h2
      have hlen2 : 2 ≤ (notesAtCol time beats tok col 0 rows).length := by
        rw [hlen]; exact h2
      rcases hL : notesAtCol time beats tok col 0 rows with _ | ⟨a, rest⟩
      · rw [hL] at hlen2; simp at hlen2
      · rcases rest with _ | ⟨b, t⟩
        · rw [hL] at hlen2; simp at hlen2
        · refine ⟨a :: b :: t, ?_, ?_, ?_⟩
          · rfl
          · rw [← hlen, hL]
          · intro ne hne
            exact hmem ne (by rw [hL]; exact hne)

/-- Witness for C2: the rest branch of the theorem at a concrete
no-match column. -/
theorem c2_duration_mode_events_witness :
    eventFromNotes 5 7 (notesAtCol 5 7 (parseDurationToken ['Q']) 0 0 ["--".toList]) =
      Event.rest ⟨5, 7⟩ :=
  ((c2_duration_mode_events ["--".toList] ⟨4, 4⟩ "QQ".toList).2.2.2 5 7
    (parseDurationToken ['Q']) 0).1 (by decide)

/-! ## Claim C1 — rendering column computation -/

private lemma hasRhythmMode_iff (m : Measure) :
    hasRhythmMode m = true ↔ (m.events ≠ [] ∧ ∀ e ∈ m.events, e.start < 64) := by
  unfold hasRhythmMode
  rcases hE : m.events with _ | ⟨e0, rest⟩
  · simp
  · simp [List.all_eq_true, List.forall_mem_map]

private lemma pyInt_eq_floor {t : ℚ} (ht : 0 ≤ t) : pyInt t = ⌊t⌋ := by
  unfold pyInt
  rw [if_neg (not_lt.mpr ht)]

/-- Claim C1 (corrected), counterexample.  In the measure `c1Measure` every
event's start is strictly below 64, yet the rendered column of the event
with start 2 is 4 — the proportional mapping
`round((2 / 4) × (9 − 1)) = 4` — and not `⌊2⌋ = 2` as the claim demands for
that case. -/
theorem c1_counterexample :
    hasRhythmMode c1Measure = true ∧
    (Event.note { start := 2, duration := 2, string_index := 0, fret := some 0 }
      ∈ c1Measure.events) ∧
    renderEventCol c1Measure
      (.note { start := 2, duration := 2, string_index := 0, fret := some 0 }) = 4 ∧
    ⌊(2 : ℚ)⌋ = 2 ∧ (4 : ℤ) ≠ 2 := by decide

/-- Claim C1 (corrected), amended.  The two branches are the other way
around: when the measure has events and every start is strictly below 64
the column is the proportional mapping
`clamp(round(start / total × (width − 1)), 0, width − 1)` (where `total` is
the sum of the event durations, defaulting to 4 when that sum is ≤ 0);
otherwise (some start ≥ 64, or no events) the column is computed literally
as `⌊start⌋` (Python `int`, equal to the floor for the non-negative starts
covered here). -/
theorem c1_render_column_mapping (m : Measure) (w : ℕ) (t : ℚ) (ht : 0 ≤ t) :
    timeToCol m w t =
      if m.events ≠ [] ∧ ∀ e ∈ m.events, e.start < 64 then
        max 0 (min ((w : ℤ) - 1)
          (pyRound (t / (if (m.events.map Event.duration).sum ≤ 0 then 4
                         else (m.events.map Event.duration).sum) * ((w : ℚ) - 1))))
      else ⌊t⌋ := by
  unfold timeToCol
  by_cases hR : m.events ≠ [] ∧ ∀ e ∈ m.events, e.start < 64
  · rw [if_pos hR, if_neg (not_not_intro ((hasRhythmMode_iff m).mpr hR))]
  · rw [if_neg hR, if_pos (fun h => hR ((hasRhythmMode_iff m).mp h))]
    exact pyInt_eq_floor ht

/-- Witness for the amended C1 at the counterexample measure and `t = 2`. -/
theorem c1_render_column_mapping_witness :
    timeToCol c1Measure 9 2 =
      if c1Measure.events ≠ [] ∧ ∀ e ∈ c1Measure.events, e.start < 64 then
        max 0 (min (((9 : ℕ) : ℤ) - 1)
          (pyRound (2 / (if (c1Measure.events.map Event.duration).sum ≤ 0 then 4
                         else (c1Measure.events.map Event.duration).sum) *
            (((9 : ℕ) : ℚ) - 1))))
      else ⌊(2 : ℚ)⌋ :=
  c1_render_column_mapping c1Measure 9 2 (by decide)

/-! ## Claim C8 — pitch assignment -/

private lemma tuningToOpenMidi_length (labels : List (List Char)) :
    (tuningToOpenMidi labels).length = labels.length := by
  simp [tuningToOpenMidi]

private lemma tuningToOpenMidi_getD {labels : List (List Char)} {si : ℕ}
    (h : si < labels.length) :
    (tuningToOpenMidi labels).getD si 0 =
      openMidiOfLabel labels.length si (labels.getD si []) := by
  unfold tuningToOpenMidi
  rw [List.getD_eq_getElem _ _ (by simpa using h)]
  simp [h]

private lemma assignPitchNote_spec (labels : List (List Char)) (ne0 : NoteEvent) :
    ((assignPitchNote (tuningToOpenMidi labels) ne0).fret = none →
      (assignPitchNote (tuningToOpenMidi labels) ne0).pitch = none) ∧
    (∀ f : ℕ, (assignPitchNote (tuningToOpenMidi labels) ne0).fret = some f →
      (assignPitchNote (tuningToOpenMidi labels) ne0).string_index < labels.length →
      (assignPitchNote (tuningToOpenMidi labels) ne0).pitch =
        some (openMidiOfLabel labels.length
          (assignPitchNote (tuningToOpenMidi labels) ne0).string_index
          (labels.getD
            (assignPitchNote (tuningToOpenMidi labels) ne0).string_index []) + f)) := by
  obtain ⟨f1, f2, f3, f4⟩ := assignPitchNote_fields (tuningToOpenMidi labels) ne0
  unfold assignPitchNote at *
  cases hf : ne0.fret with
  | none => simp [hf]
  | some f0 =>
      simp only [hf]
      by_cases hi : ne0.string_index < (tuningToOpenMidi labels).length
      · rw [if_pos hi]
        refine ⟨by simp, ?_⟩
        intro f hfret hsi
        simp only [Option.some.injEq] at hfret
        subst hfret
        simp only [Option.some.injEq]
        rw [tuningToOpenMidi_getD (by rwa [tuningToOpenMidi_length] at hi)]
      · rw [if_neg hi]
        refine ⟨by simp [hf], ?_⟩
        intro f hfret hsi
        rw [tuningToOpenMidi_length] at hi
        exact absurd hsi hi

/-- Claim C8 (confirmed).  After pitch assignment, every note event (plain
or inside a chord) with an absent fret has an absent pitch regardless of
string-index validity, and every note with fret `f` on an in-range string
resolves to `open_pitch(string_index) + f`, where the open pitch is
computed from the label's pitch class (falling back to pitch class E for
unrecognized labels) and the positional octaves ([4,3,3,3,2,2] for
six-label tunings, octave 4 per position otherwise) — see
`openMidiOfLabel` and `octaveFor`.  In particular, with tuning
`["E", "B"]` the open pitches are `[64, 71]` and fret 2 on string 0
resolves to pitch 66. -/
theorem c8_pitch_assignment (tuning : Tuning) (events : List Event) :
    (∀ e ∈ assignPitches tuning events,
      (∀ ne : NoteEvent, e = Event.note ne →
        (ne.fret = none → ne.pitch = none) ∧
        (∀ f : ℕ, ne.fret = some f → ne.string_index < tuning.labels.length →
          ne.pitch = some (openMidiOfLabel tuning.labels.length ne.string_index
            (tuning.labels.getD ne.string_index []) + f))) ∧
      (∀ ce : ChordEvent, e = Event.chord ce → ∀ ne ∈ ce.notes,
        (ne.fret = none → ne.pitch = none) ∧
        (∀ f : ℕ, ne.fret = some f → ne.string_index < tuning.labels.length →
          ne.pitch = some (openMidiOfLabel tuning.labels.length ne.string_index
            (tuning.labels.getD ne.string_index []) + f)))) ∧
    tuningToOpenMidi [['E'], ['B']] = [64, 71] ∧
    assignPitches ⟨[['E'], ['B']]⟩
        [.note { start := 0, duration := 1, string_index := 0, fret := some 2 }] =
      [.note { start := 0, duration := 1, string_index := 0, fret := some 2,
               pitch := some 66 }] := by
  refine ⟨?_, by decide, by decide⟩
  intro e he
  unfold assignPitches at he
  obtain ⟨ev0, hev0, rfl⟩ := List.mem_map.mp he
  cases ev0 with
  | note ne0 =>
      refine ⟨?_, ?_⟩
      · intro ne hne
        obtain rfl : assignPitchNote (tuningToOpenMidi tuning.labels) ne0 = ne :=
          Event.note.inj hne
        exact assignPitchNote_spec tuning.labels ne0
      · intro ce hce
        exact absurd hce (by simp)
  | chord ce0 =>
      refine ⟨?_, ?_⟩
      · intro ne hne
        exact absurd hne (by simp)
      · intro ce hce ne hne
        obtain rfl : { ce0 with
            notes := ce0.notes.map (assignPitchNote (tuningToOpenMidi tuning.labels)) } = ce :=
          Event.chord.inj hce
        simp only [List.mem_map] at hne
        obtain ⟨ne0, hne0, rfl⟩ := hne
        exact assignPitchNote_spec tuning.labels ne0
  | rest re =>
      exact ⟨fun ne hne => absurd hne (by simp),
             fun ce hce => absurd hce (by simp)⟩

/-- Witness for C8: pitch 66 for fret 2 on string 0 of tuning
`["E", "B"]`, obtained from the theorem at the concrete event. -/
theorem c8_pitch_assignment_witness :
    ({ start := 0, duration := 1, string_index := 0, fret := some 2,
       pitch := some 66 } : NoteEvent).pitch =
      some (openMidiOfLabel 2 0 ['E'] + 2) := by
  have h := (c8_pitch_assignment ⟨[['E'], ['B']]⟩
    [.note { start := 0, duration := 1, string_index := 0, fret := some 2 }]).1
    (.note { start := 0, duration := 1, string_index := 0, fret := some 2,
             pitch := some 66 }) (by decide)
  exact (h.1 _ rfl).2 2 rfl (by decide)

/-! ## Claims C9 and C10 — MIDI flattening -/

private lemma noteTriple_shape (spb tAbs : ℚ) (ne : NoteEvent) (p : ℕ) :
    (noteTriple spb tAbs ne p).2.1.type = MidiType.note_on ∧
    (noteTriple spb tAbs ne p).2.2.type = MidiType.note_off ∧
    (noteTriple spb tAbs ne p).2.1.velocity = 90 ∧
    (noteTriple spb tAbs ne p).2.1.channel = 0 ∧
    (noteTriple spb tAbs ne p).2.2.velocity = 90 ∧
    (noteTriple spb tAbs ne p).2.2.channel = 0 ∧
    (noteTriple spb tAbs ne p).2.2.time_sec =
      (noteTriple spb tAbs ne p).2.1.time_sec + (noteTriple spb tAbs ne p).1 * spb := by
  refine ⟨rfl, rfl, rfl, rfl, rfl, rfl, ?_⟩
  show (tAbs + ne.start + ne.duration) * spb = (tAbs + ne.start) * spb + ne.duration * spb
  ring

private lemma pitchedTriples_shape (spb tAbs : ℚ) (ne : NoteEvent)
    {tr : ℚ × MidiEvent × MidiEvent} (h : tr ∈ pitchedTriples spb tAbs ne) :
    tr.2.1.type = MidiType.note_on ∧ tr.2.2.type = MidiType.note_off ∧
    tr.2.1.velocity = 90 ∧ tr.2.1.channel = 0 ∧
    tr.2.2.velocity = 90 ∧ tr.2.2.channel = 0 ∧
    tr.2.2.time_sec = tr.2.1.time_sec + tr.1 * spb := by
  unfold pitchedTriples at h
  cases hp : ne.pitch with
  | none => rw [hp] at h; simp at h
  | some p =>
      rw [hp] at h
      rcases List.mem_singleton.mp h with rfl
      exact noteTriple_shape spb tAbs ne p

private lemma measureTriples_shape (spb tAbs : ℚ) (evs : List Event)
    {tr : ℚ × MidiEvent × MidiEvent} (h : tr ∈ measureTriples spb tAbs evs) :
    tr.2.1.type = MidiType.note_on ∧ tr.2.2.type = MidiType.note_off ∧
    tr.2.1.velocity = 90 ∧ tr.2.1.channel = 0 ∧
    tr.2.2.velocity = 90 ∧ tr.2.2.channel = 0 ∧
    tr.2.2.time_sec = tr.2.1.time_sec + tr.1 * spb := by
  unfold measureTriples at h
  obtain ⟨ev, hev, htr⟩ := List.mem_flatMap.mp h
  cases ev with
  | rest re => simp at htr
  | note ne => exact pitchedTriples_shape spb tAbs ne htr
  | chord ce =>
      obtain ⟨ne, hne, htr2⟩ := List.mem_flatMap.mp htr
      exact pitchedTriples_shape spb tAbs ne htr2

private lemma scoreTriples_shape (spb : ℚ) :
    ∀ (ms : List Measure) (t0 : ℚ) (tr : ℚ × MidiEvent × MidiEvent),
      tr ∈ scoreTriplesAux spb t0 ms →
        tr.2.1.type = MidiType.note_on ∧ tr.2.2.type = MidiType.note_off ∧
        tr.2.1.velocity = 90 ∧ tr.2.1.channel = 0 ∧
        tr.2.2.velocity = 90 ∧ tr.2.2.channel = 0 ∧
        tr.2.2.time_sec = tr.2.1.time_sec + tr.1 * spb
  | [], _, tr, h => by simp [scoreTriplesAux] at h
  | m :: ms, t0, tr, h => by
      rw [scoreTriplesAux] at h
      rcases List.mem_append.mp h with h1 | h1
      · exact measureTriples_shape spb t0 m.events h1
      · exact scoreTriples_shape spb ms (t0 + measureAdvance m) tr h1

private lemma pairs_counts :
    ∀ (trs : List (ℚ × MidiEvent × MidiEvent)),
      (∀ tr ∈ trs, tr.2.1.type = MidiType.note_on ∧
        tr.2.2.type = MidiType.note_off) →
      onCount (trs.flatMap fun tr => [tr.2.1, tr.2.2]) = trs.length ∧
      offCount (trs.flatMap fun tr => [tr.2.1, tr.2.2]) = trs.length
  | [], _ => ⟨rfl, rfl⟩
  | tr :: trs, h => by
      have hh := h tr (List.mem_cons_self tr trs)
      have ih := pairs_counts trs fun tr2 h2 => h tr2 (List.mem_cons_of_mem tr h2)
      unfold onCount offCount at ih ⊢
      constructor
      · simp only [List.flatMap_cons, List.cons_append, List.nil_append,
          List.filter_cons, hh.1, hh.2]
        simp [ih.1]
      · simp only [List.flatMap_cons, List.cons_append, List.nil_append,
          List.filter_cons, hh.1, hh.2]
        simp [ih.2]

private lemma pitchedTriples_length (spb tAbs : ℚ) (ne : NoteEvent) :
    (pitchedTriples spb tAbs ne).length = if ne.pitch.isSome then 1 else 0 := by
  unfold pitchedTriples
  cases hp : ne.pitch <;> simp

private lemma chordTriples_length (spb tAbs : ℚ) :
    ∀ notes : List NoteEvent,
      (notes.flatMap (pitchedTriples spb tAbs)).length =
        (notes.filter fun ne => ne.pitch.isSome).length
  | [] => rfl
  | ne :: notes => by
      have ih := chordTriples_length spb tAbs notes
      simp only [List.flatMap_cons, List.length_append, List.filter_cons]
      rw [pitchedTriples_length, ih]
      cases hp : ne.pitch <;> simp [hp] <;> omega

private lemma measureTriples_length (spb tAbs : ℚ) :
    ∀ evs : List Event,
      (measureTriples spb tAbs evs).length = (evs.map eventPitchedCount).sum
  | [] => rfl
  | ev :: evs => by
      have ih := measureTriples_length spb tAbs evs
      unfold measureTriples at ih ⊢
      simp only [List.flatMap_cons, List.length_append, List.map_cons, List.sum_cons]
      rw [ih]
      congr 1
      cases ev with
      | rest re => rfl
      | note ne =>
          rw [pitchedTriples_length]
          unfold eventPitchedCount
          cases hp : ne.pitch <;> simp [hp]
      | chord ce => exact chordTriples_length spb tAbs ce.notes

private lemma scoreTriples_length (spb : ℚ) :
    ∀ (ms : List Measure) (t0 : ℚ),
      (scoreTriplesAux spb t0 ms).length =
        (ms.map fun m => (m.events.map eventPitchedCount).sum).sum
  | [], _ => rfl
  | m :: ms, t0 => by
      rw [scoreTriplesAux]
      simp only [List.length_append, List.map_cons, List.sum_cons]
      rw [measureTriples_length, scoreTriples_length spb ms (t0 + measureAdvance m)]

/-- Claim C9 (confirmed).  `to_midi_events` returns a list sorted by
`(time, note_on before note_off at equal time, pitch)` (`midiLe`); the
number of `note_on` markers and the number of `note_off` markers each equal
the number of notes with a resolved pitch (so every pitched note yields
exactly one on/off pair and unpitched notes are silently omitted); and the
single-note score at tempo 120 BPM yields exactly one `note_on` at 0.0 s
and one `note_off` at 0.5 s (seconds = beats × 60/tempo). -/
theorem c9_midi_flattening (s : TabScore) (tempo : ℚ) :
    List.Sorted midiLe (toMidiEvents s tempo) ∧
    onCount (toMidiEvents s tempo) = pitchedCount s ∧
    offCount (toMidiEvents s tempo) = pitchedCount s ∧
    toMidiEvents c9Score 120 =
      [⟨0, .note_on, 64, 90, 0⟩, ⟨1/2, .note_off, 64, 90, 0⟩] := by
  have hperm := List.perm_insertionSort midiLe
    ((midiTriples s tempo).flatMap fun tr => [tr.2.1, tr.2.2])
  have hshape := fun tr htr =>
    scoreTriples_shape (secPerBeat tempo) (allMeasures s) 0 tr htr
  have hcounts := pairs_counts (midiTriples s tempo)
    (fun tr htr => ⟨(hshape tr htr).1, (hshape tr htr).2.1⟩)
  have hlen : (midiTriples s tempo).length = pitchedCount s :=
    scoreTriples_length (secPerBeat tempo) (allMeasures s) 0
  refine ⟨List.sorted_insertionSort midiLe _, ?_, ?_, by decide⟩
  · unfold toMidiEvents onCount
    rw [(hperm.filter _).length_eq, ← hlen]
    exact hcounts.1
  · unfold toMidiEvents offCount
    rw [(hperm.filter _).length_eq, ← hlen]
    exact hcounts.2

/-- Claim C10 (corrected), counterexample.  At tempo −120 BPM the pitched
note of `c10Score` (duration 1 beat, non-negative) produces a `note_off`
marker at −0.5 s, strictly earlier than its `note_on` marker at 0 s, so the
claim fails for negative tempos. -/
theorem c10_counterexample :
    toMidiEvents c10Score (-120) =
      [⟨-(1/2), .note_off, 64, 90, 0⟩, ⟨0, .note_on, 64, 90, 0⟩] ∧
    (-(1/2) : ℚ) < 0 := by decide

/-- Claim C10 (corrected), amended.  For every score and *non-negative*
tempo, every `MidiEvent` returned by `to_midi_events` has velocity 90 and
channel 0, and for each generated pitched-note triple whose note duration
is non-negative the `note_off` time is never earlier than the `note_on`
time. -/
theorem c10_velocity_channel_order (s : TabScore) (tempo : ℚ) (ht : 0 ≤ tempo) :
    (∀ e ∈ toMidiEvents s tempo, e.velocity = 90 ∧ e.channel = 0) ∧
    (∀ tr ∈ midiTriples s tempo, 0 ≤ tr.1 →
      tr.2.1.time_sec ≤ tr.2.2.time_sec) := by
  constructor
  · intro e he
    have he2 : e ∈ (midiTriples s tempo).flatMap fun tr => [tr.2.1, tr.2.2] :=
      (List.mem_insertionSort midiLe).mp he
    obtain ⟨tr, htr, hmem⟩ := List.mem_flatMap.mp he2
    obtain ⟨-, -, v1, ch1, v2, ch2, -⟩ :=
      scoreTriples_shape (secPerBeat tempo) (allMeasures s) 0 tr htr
    rcases List.mem_cons.mp hmem with rfl | hmem2
    · exact ⟨v1, ch1⟩
    · rcases List.mem_singleton.mp hmem2 with rfl
      exact ⟨v2, ch2⟩
  · intro tr htr hd
    obtain ⟨-, -, -, -, -, -, htime⟩ :=
      scoreTriples_shape (secPerBeat tempo) (allMeasures s) 0 tr htr
    rw [htime]
    have hspb : 0 ≤ secPerBeat tempo := div_nonneg (by norm_num) ht
    exact le_add_of_nonneg_right (mul_nonneg hd hspb)

/-- Witness for the amended C10 at the single-note score and tempo 120. -/
theorem c10_velocity_channel_order_witness : ((0 : ℚ) ≤ 1/2) ∧
    (({ time_sec := 0, type := .note_on, pitch := 64 } : MidiEvent).velocity = 90 ∧
     ({ time_sec := 0, type := .note_on, pitch := 64 } : MidiEvent).channel = 0) := by
  have h := c10_velocity_channel_order c10Score 120 (by decide)
  refine ⟨?_, h.1 ⟨0, .note_on, 64, 90, 0⟩ (by decide)⟩
  exact h.2 (1, ⟨0, .note_on, 64, 90, 0⟩, ⟨1/2, .note_off, 64, 90, 0⟩)
    (by decide) (by decide)

/-! ## Claim C6 — hard-failure behaviour of `parse_tab` -/

/-- Claim C6 (code bug).  The input `c6Lines` has a complete header (its
title and artist lines parse), yet `parse_tab` aborts with the
division-by-zero error: the `4/0` time-signature line combined with the
multi-measure-rest token `Wx2` makes `_duration_token_to_beats` evaluate
`Fraction(4, 0)`, which raises an uncaught `ZeroDivisionError` in the
Python source — a third hard-failure mode beyond the two the claim
permits. -/
theorem c6_zero_division_bug : c6Check = true := by decide

end Tabulator
